import Mathlib

/-!
# Profile-image route: identifier normalisation, path resolution, upload and clear

A shallow embedding of `src/app/api/user/[id]/image/route.js`.

JavaScript strings are modelled as lists of characters (`Str`), so that every
string operation of the route (`trim`, `startsWith`, `replace(/^\//, "")`,
the regular expression `/[a-fA-F0-9]{24}/`, template literals, `path.join`) is a
structurally recursive list function that can be evaluated and reasoned about.
-/

namespace ImageRoute

/-- A JavaScript string, as its sequence of characters. -/
abbrev Str := List Char

/-! ## JavaScript values that reach the route -/

/-- The values the route inspects with `!x` and `typeof x`: `undefined`, `null`,
a string, or any other value, of which only the truthiness is observed. -/
inductive JsVal where
  | undefined
  | null
  | str (s : Str)
  | other (truthy : Bool)
  deriving DecidableEq

/-- JavaScript truthiness (`!!v`): `undefined`, `null` and `""` are falsy. -/
def JsVal.truthy : JsVal → Bool
  | .undefined => false
  | .null => false
  | .str s => !s.isEmpty
  | .other t => t

/-! ## String primitives -/

/-- Characters matched by the class `[a-fA-F0-9]`. -/
def isHexChar (c : Char) : Bool :=
  (48 ≤ c.toNat && c.toNat ≤ 57) || (97 ≤ c.toNat && c.toNat ≤ 102) ||
    (65 ≤ c.toNat && c.toNat ≤ 70)

/-- White space and line terminators removed by `String.prototype.trim`
(ECMAScript `WhiteSpace` and `LineTerminator`). -/
def isJsWhitespace (c : Char) : Bool :=
  let n := c.toNat
  n == 0x09 || n == 0x0A || n == 0x0B || n == 0x0C || n == 0x0D || n == 0x20 ||
    n == 0xA0 || n == 0x1680 || (0x2000 ≤ n && n ≤ 0x200A) || n == 0x2028 ||
    n == 0x2029 || n == 0x202F || n == 0x205F || n == 0x3000 || n == 0xFEFF

/-- The method `String.prototype.trim`: strips white space from both ends. -/
def trim (s : Str) : Str :=
  ((s.dropWhile isJsWhitespace).reverse.dropWhile isJsWhitespace).reverse

/-- The method `String.prototype.startsWith`. -/
def startsWith : Str → Str → Bool
  | _, [] => true
  | [], _ :: _ => false
  | c :: cs, p :: ps => c == p && startsWith cs ps

/-! ## Identifier normaliser -/

/-- An `ObjectId` of the MongoDB driver: the twelve bytes decoded from its
hexadecimal form. Two object ids are equal exactly when their bytes are. -/
structure ObjectId where
  bytes : List Nat
  deriving DecidableEq

/-- Value of a hexadecimal digit (either case); `0` for any other character. -/
def hexDigitVal (c : Char) : Nat :=
  let n := c.toNat
  if 48 ≤ n ∧ n ≤ 57 then n - 48
  else if 97 ≤ n ∧ n ≤ 102 then n - 87
  else if 65 ≤ n ∧ n ≤ 70 then n - 55
  else 0

/-- Decodes pairs of hexadecimal digits into bytes. -/
def hexToBytes : Str → List Nat
  | hi :: lo :: rest => (16 * hexDigitVal hi + hexDigitVal lo) :: hexToBytes rest
  | _ => []

/-- Modelled from the spec: `ObjectId.isValid` belongs to the MongoDB driver,
which is imported by the route but is not part of its sources. The spec calls a
canonical identifier a 24-hex-character string, which is the driver's check
`length === 24 && /^[0-9a-fA-F]{24}$/.test(s)` for string input. -/
def ObjectId.isValid (s : Str) : Bool :=
  s.length == 24 && s.all isHexChar

/-- The constructor `new ObjectId(hex)` for a valid 24-character hex string. -/
def ObjectId.ofHex (s : Str) : ObjectId :=
  ⟨hexToBytes s⟩

/-- The value stored under `_id`: an object id or a literal string key. -/
inductive IdKey where
  | oid (o : ObjectId)
  | lit (s : Str)
  deriving DecidableEq

/-- A query filter `{ _id: key }` on the user collection. -/
structure Filter where
  _id : IdKey
  deriving DecidableEq

/-- Holds when the first `n` characters exist and all match `[a-fA-F0-9]`. -/
def hexRun : Nat → Str → Bool
  | 0, _ => true
  | _ + 1, [] => false
  | n + 1, c :: cs => isHexChar c && hexRun n cs

/-- The call `s.match(/[a-fA-F0-9]{24}/)`: the regular expression engine tries
each start position from the left and returns the first 24-character match
(`match[0]`), or `null` when no position matches. -/
def matchHex24 : Str → Option Str
  | [] => none
  | c :: cs => if hexRun 24 (c :: cs) then some ((c :: cs).take 24) else matchHex24 cs

/-- The function `normalizeId(id)`; the result is the `filter` field of the
returned object, `none` standing for `{ filter: null }`. The route parameter
`id` is a string or absent. -/
def normalizeId (id : Option Str) : Option Filter :=
  match id with
  | none => none
  | some s =>
    if s.isEmpty then none
    else
      let clean := trim s
      if ObjectId.isValid clean then some ⟨.oid (ObjectId.ofHex clean)⟩
      else
        match matchHex24 clean with
        | some m =>
          if ObjectId.isValid m then some ⟨.oid (ObjectId.ofHex m)⟩
          else some ⟨.lit clean⟩
        | none => some ⟨.lit clean⟩

/-! ## Path handling (`path.join` of Node.js on POSIX) -/

/-- Splits a path at every `/`; the result always has at least one segment. -/
def splitSlash : Str → List Str
  | [] => [[]]
  | c :: cs =>
    if c = '/' then [] :: splitSlash cs
    else
      match splitSlash cs with
      | seg :: rest => (c :: seg) :: rest
      | [] => [[c]]

/-- Joins segments with `/` between them. -/
def joinSlash : List Str → Str
  | [] => []
  | [s] => s
  | s :: t :: rest => s ++ '/' :: joinSlash (t :: rest)

/-- One step of `normalizeString` of Node's `path` module, on whole segments.
The stack holds the segments kept so far, most recent first. Empty segments and
`.` are dropped; `..` removes the previous segment unless there is none or it is
itself `..`, in which case it is kept only when `allowAboveRoot` is set. -/
def normalizeStep (allowAboveRoot : Bool) (stack : List Str) (seg : Str) : List Str :=
  if seg = [] ∨ seg = ['.'] then stack
  else if seg = ['.', '.'] then
    match stack with
    | top :: rest =>
      if top = ['.', '.'] then (if allowAboveRoot then seg :: stack else stack)
      else rest
    | [] => if allowAboveRoot then [seg] else []
  else seg :: stack

/-- The helper `normalizeString(path, allowAboveRoot, "/")`: resolves `.` and
`..` segments; the result has neither a leading nor a trailing slash. -/
def normalizeString (path : Str) (allowAboveRoot : Bool) : Str :=
  joinSlash ((splitSlash path).foldl (normalizeStep allowAboveRoot) []).reverse

/-- The function `path.posix.normalize`. -/
def pathNormalize (path : Str) : Str :=
  if path = [] then ['.']
  else
    let isAbsolute := path.head? = some '/'
    let trailingSeparator := path.getLast? = some '/'
    let p := normalizeString path (!isAbsolute)
    if p = [] then
      if isAbsolute then ['/'] else if trailingSeparator then ['.', '/'] else ['.']
    else
      let p := if trailingSeparator then p ++ ['/'] else p
      if isAbsolute then '/' :: p else p

/-- The loop of `path.posix.join` that concatenates the non-empty arguments
with `/`; `none` stands for `joined === undefined`. -/
def joinArgs : Option Str → List Str → Option Str
  | joined, [] => joined
  | joined, arg :: rest =>
    if arg = [] then joinArgs joined rest
    else
      match joined with
      | none => joinArgs (some arg) rest
      | some j => joinArgs (some (j ++ '/' :: arg)) rest

/-- The function `path.join(...args)`. -/
def pathJoin (args : List Str) : Str :=
  match joinArgs none args with
  | none => ['.']
  | some joined => pathNormalize joined

/-- The public URL prefix of stored images. -/
def publicPrefix : Str := "/profile-images/".toList

/-- The call `imageUrl.replace(/^\//, "")`: removes one leading slash. -/
def stripLeadingSlash : Str → Str
  | '/' :: rest => rest
  | s => s

/-- The function `getPublicImagePath(imageUrl)`; `cwd` is the value of
`process.cwd()` and `none` stands for `null`. -/
def getPublicImagePath (cwd : Str) (imageUrl : JsVal) : Option Str :=
  match imageUrl with
  | .str s =>
    if s.isEmpty then none
    else if !startsWith s publicPrefix then none
    else
      let relativePath := stripLeadingSlash s
      some (pathJoin [cwd, "public".toList, relativePath])
  | _ => none

/-! ## File names -/

/-- The own properties of the object literal `ALLOWED_IMAGE_TYPES`. -/
def ALLOWED_IMAGE_TYPES : List (Str × Str) :=
  [("image/jpeg".toList, "jpg".toList), ("image/png".toList, "png".toList),
   ("image/gif".toList, "gif".toList), ("image/webp".toList, "webp".toList)]

/-- The properties an object literal inherits from `Object.prototype`, each
with the text its value converts to inside a template literal. They are all
truthy, so the test `!ALLOWED_IMAGE_TYPES[file.type]` lets these keys through. -/
def objectPrototypeProperties : List (Str × Str) :=
  [("constructor".toList, "function Object() \x7b [native code] \x7d".toList),
   ("__proto__".toList, "[object Object]".toList),
   ("toString".toList, "function toString() \x7b [native code] \x7d".toList),
   ("toLocaleString".toList, "function toLocaleString() \x7b [native code] \x7d".toList),
   ("valueOf".toList, "function valueOf() \x7b [native code] \x7d".toList),
   ("hasOwnProperty".toList, "function hasOwnProperty() \x7b [native code] \x7d".toList),
   ("isPrototypeOf".toList, "function isPrototypeOf() \x7b [native code] \x7d".toList),
   ("propertyIsEnumerable".toList,
     "function propertyIsEnumerable() \x7b [native code] \x7d".toList),
   ("__defineGetter__".toList, "function __defineGetter__() \x7b [native code] \x7d".toList),
   ("__defineSetter__".toList, "function __defineSetter__() \x7b [native code] \x7d".toList),
   ("__lookupGetter__".toList, "function __lookupGetter__() \x7b [native code] \x7d".toList),
   ("__lookupSetter__".toList, "function __lookupSetter__() \x7b [native code] \x7d".toList)]

/-- First value stored under a key of an association list. -/
def assocGet {β : Type} (k : Str) : List (Str × β) → Option β
  | [] => none
  | (k', v) :: rest => if k' = k then some v else assocGet k rest

/-- The property read `ALLOWED_IMAGE_TYPES[mimeType]`, as the text the value
converts to; `none` stands for `undefined`. Own properties shadow inherited
ones. Every value that is found is truthy. -/
def allowedImageType (mimeType : Str) : Option Str :=
  match assocGet mimeType ALLOWED_IMAGE_TYPES with
  | some ext => some ext
  | none => assocGet mimeType objectPrototypeProperties

/-- Lower-case hexadecimal digit of a value below sixteen. -/
def hexDigit (n : Nat) : Char :=
  if n < 10 then Char.ofNat (48 + n) else Char.ofNat (87 + n)

/-- The call `buffer.toString("hex")`: two lower-case digits per byte. -/
def toHex : List Nat → Str
  | [] => []
  | b :: rest => hexDigit (b / 16 % 16) :: hexDigit (b % 16) :: toHex rest

/-- The function `getNewImageName(mimeType)`; `randomBytes` is the buffer
returned by `crypto.randomBytes(32)`. An `undefined` extension would print as
the text `undefined`. -/
def getNewImageName (randomBytes : List Nat) (mimeType : Str) : Str :=
  let ext := (allowedImageType mimeType).getD "undefined".toList
  let unguessablePart := toHex randomBytes
  unguessablePart ++ '.' :: ext

/-! ## Requests, responses and the world the handlers act on -/

/-- A `File` entry of a form: its MIME type and its content. -/
structure UploadedFile where
  type : Str
  content : List Nat
  deriving DecidableEq

/-- A value of a multipart form: a string or a `File`. -/
inductive FormValue where
  | text (s : Str)
  | file (f : UploadedFile)
  deriving DecidableEq

/-- The parts of the incoming request the upload handler reads: the
`content-type` header (`none` when absent) and what `req.formData()` resolves
to (`none` when it rejects because the body cannot be parsed). -/
structure Request where
  contentType : Option Str
  formData : Option (List (Str × FormValue))
  deriving DecidableEq

/-- The JSON body of a response. -/
inductive Body where
  | message (text : Str)
  | imageUrl (url : Str)
  deriving DecidableEq

/-- A response built by `NextResponse.json`: its status and its body. The
CORS headers are the same imported table on every response and are left out. -/
structure Response where
  status : Nat
  body : Body
  deriving DecidableEq

/-- A document of the `user` collection, as far as the route reads it. -/
structure User where
  _id : IdKey
  profileImage : JsVal
  deriving DecidableEq

/-- The persistent state: the files on disk (path and content) and the
documents of the `user` collection. -/
structure World where
  files : List (Str × List Nat)
  users : List User
  deriving DecidableEq

/-- The outcome of every awaited step that can throw for reasons outside the
route: `some e` makes the step throw an error whose `toString()` is `e`, should
the handler reach that step; `none` lets it succeed. -/
structure Faults where
  connect : Option Str
  findOne : Option Str
  rm : Option Str
  arrayBuffer : Option Str
  mkdir : Option Str
  writeFile : Option Str
  updateOne : Option Str
  deriving DecidableEq

/-- Every step succeeds. -/
def Faults.none : Faults :=
  ⟨Option.none, Option.none, Option.none, Option.none, Option.none, Option.none, Option.none⟩

/-- Content of the file at a path, if the file exists. -/
def readFile (files : List (Str × List Nat)) (path : Str) : Option (List Nat) :=
  assocGet path files

/-- The effect of a successful `fs.rm(path, { force: true })`: the file is gone,
and an absent file is not an error. -/
def rmForce : List (Str × List Nat) → Str → List (Str × List Nat)
  | [], _ => []
  | (k, data) :: rest, path =>
    if k = path then rmForce rest path else (k, data) :: rmForce rest path

/-- The effect of a successful `fs.writeFile(path, data)`: the file holds
exactly `data`, replacing any earlier content. -/
def writeFile (files : List (Str × List Nat)) (path : Str) (data : List Nat) :
    List (Str × List Nat) :=
  (path, data) :: rmForce files path

/-- The query `collection.findOne(filter)`: the first document whose `_id`
equals the key of the filter. -/
def findOne : List User → Filter → Option User
  | [], _ => none
  | u :: rest, filter => if u._id = filter._id then some u else findOne rest filter

/-- The update `collection.updateOne({ _id }, { $set: { profileImage } })`: sets the
field on the first document with that `_id`. -/
def updateOne : List User → IdKey → JsVal → List User
  | [], _, _ => []
  | u :: rest, key, v =>
    if u._id = key then { u with profileImage := v } :: rest
    else u :: updateOne rest key v

/-- The function `parseMultipartFormData(req)`; `none` stands for a thrown
error, either the one raised here or a rejection of `req.formData()`. -/
def parseMultipartFormData (req : Request) : Option (List (Str × FormValue)) :=
  let contentType := req.contentType.getD []
  if !startsWith contentType "multipart/form-data".toList then none
  else req.formData

/-- The block shared by both handlers that removes the stored image of the
user that was found:
`if (currentUser.profileImage) { const oldFilePath = ...; if (oldFilePath) await fs.rm(...) }`.
An error thrown by `fs.rm` is not caught here. -/
def removeOldImage (cwd : Str) (faults : Faults) (w : World) (currentUser : User) :
    Except Str World :=
  if currentUser.profileImage.truthy then
    match getPublicImagePath cwd currentUser.profileImage with
    | some oldFilePath =>
      match faults.rm with
      | some e => .error e
      | none => .ok { w with files := rmForce w.files oldFilePath }
    | none => .ok w
  else .ok w

/-- The `try` block of `POST`, entered once the request is validated. Any
thrown error is caught by the single `catch` and answered with status 500;
the effects of the steps that ran before it stay. -/
def postTry (cwd : Str) (faults : Faults) (w : World) (filter : Filter) (file : UploadedFile)
    (imageUrl savePath : Str) : Response × World :=
  match faults.connect with
  | some e => (⟨500, .message e⟩, w)
  | none =>
  match faults.findOne with
  | some e => (⟨500, .message e⟩, w)
  | none =>
  match findOne w.users filter with
  | none => (⟨404, .message "User not found".toList⟩, w)
  | some currentUser =>
  match removeOldImage cwd faults w currentUser with
  | .error e => (⟨500, .message e⟩, w)
  | .ok w1 =>
  match faults.arrayBuffer with
  | some e => (⟨500, .message e⟩, w1)
  | none =>
  match faults.mkdir with
  | some e => (⟨500, .message e⟩, w1)
  | none =>
  match faults.writeFile with
  | some e => (⟨500, .message e⟩, w1)
  | none =>
  let w2 : World := { w1 with files := writeFile w1.files savePath file.content }
  match faults.updateOne with
  | some e => (⟨500, .message e⟩, w2)
  | none =>
    (⟨200, .imageUrl imageUrl⟩,
      { w2 with users := updateOne w2.users currentUser._id (.str imageUrl) })

/-- The handler `POST(req, { params })`: the response and the world after it.
`id` is the route parameter, `randomBytes` what `crypto.randomBytes(32)` returns. -/
def POST (cwd : Str) (randomBytes : List Nat) (faults : Faults) (w : World)
    (id : Option Str) (req : Request) : Response × World :=
  match normalizeId id with
  | none => (⟨400, .message "Invalid user id".toList⟩, w)
  | some filter =>
  match parseMultipartFormData req with
  | none => (⟨400, .message "Invalid form data".toList⟩, w)
  | some formData =>
  match assocGet "file".toList formData with
  | none => (⟨400, .message "No file uploaded".toList⟩, w)
  | some (.text _) => (⟨400, .message "No file uploaded".toList⟩, w)
  | some (.file file) =>
  match allowedImageType file.type with
  | none => (⟨400, .message "Only image files allowed".toList⟩, w)
  | some _ =>
    let filename := getNewImageName randomBytes file.type
    let imageUrl := "/profile-images/".toList ++ filename
    match getPublicImagePath cwd (.str imageUrl) with
    | none => (⟨500, .message "Failed to build image path".toList⟩, w)
    | some savePath => postTry cwd faults w filter file imageUrl savePath

/-- The handler `DELETE(_req, { params })`: the response and the world after it. -/
def DELETE (cwd : Str) (faults : Faults) (w : World) (id : Option Str) : Response × World :=
  match normalizeId id with
  | none => (⟨400, .message "Invalid user id".toList⟩, w)
  | some filter =>
  match faults.connect with
  | some e => (⟨500, .message e⟩, w)
  | none =>
  match faults.findOne with
  | some e => (⟨500, .message e⟩, w)
  | none =>
  match findOne w.users filter with
  | none => (⟨404, .message "User not found".toList⟩, w)
  | some currentUser =>
  match removeOldImage cwd faults w currentUser with
  | .error e => (⟨500, .message e⟩, w)
  | .ok w1 =>
  match faults.updateOne with
  | some e => (⟨500, .message e⟩, w1)
  | none =>
    (⟨200, .message "OK".toList⟩,
      { w1 with users := updateOne w1.users currentUser._id .null })

/-! ## The no-dangling-reference condition -/

/-- Holds when the value is a URL that resolves to a path at which a file exists. -/
def referencesStoredFile (cwd : Str) (files : List (Str × List Nat)) (v : JsVal) : Bool :=
  match getPublicImagePath cwd v with
  | some path => (readFile files path).isSome
  | none => false

/-- A `profileImage` is sound when it is `null` or references a file that exists. -/
def profileImageOk (cwd : Str) (files : List (Str × List Nat)) (v : JsVal) : Bool :=
  match v with
  | .null => true
  | _ => referencesStoredFile cwd files v

/-! ## A concrete deployment, used to evaluate the handlers -/

/-- Working directory of the server process. -/
def exampleCwd : Str := "/app".toList

/-- The identifier of the user in the examples of the spec. -/
def exampleId : Str := "507f1f77bcf86cd799439011".toList

/-- The filter that identifier is normalised to. -/
def exampleFilter : Filter := ⟨.oid (ObjectId.ofHex exampleId)⟩

/-- A buffer of 32 bytes standing for one draw of `crypto.randomBytes(32)`. -/
def exampleRandom : List Nat :=
  [0, 1, 2, 3, 4, 5, 6, 7, 8, 9, 10, 11, 12, 13, 14, 15, 16, 17, 18, 19, 20, 21, 22, 23, 24, 25,
   26, 27, 28, 29, 30, 31]

/-- The name generated from `exampleRandom` for a PNG upload. -/
def exampleNewUrl : Str :=
  "/profile-images/000102030405060708090a0b0c0d0e0f101112131415161718191a1b1c1d1e1f.png".toList

/-- The user of the spec's example, without an image, and an empty disk. -/
def freshWorld : World :=
  { files := [], users := [⟨.oid (ObjectId.ofHex exampleId), .null⟩] }

/-- The same user with a stored image `x.jpg` that exists on disk. -/
def storedWorld : World :=
  { files := [("/app/public/profile-images/x.jpg".toList, [1, 2, 3])],
    users := [⟨.oid (ObjectId.ofHex exampleId), .str "/profile-images/x.jpg".toList⟩] }

/-- The same user whose stored image `x.jpg` is no longer on disk. -/
def staleWorld : World :=
  { files := [],
    users := [⟨.oid (ObjectId.ofHex exampleId), .str "/profile-images/x.jpg".toList⟩] }

/-- A multipart request with a PNG file in the field `file`. -/
def pngRequest : Request :=
  { contentType := some "multipart/form-data; boundary=x".toList,
    formData := some [("file".toList, .file ⟨"image/png".toList, [137, 80, 78, 71]⟩)] }

/-- A multipart request with a PDF file in the field `file`. -/
def pdfRequest : Request :=
  { contentType := some "multipart/form-data; boundary=x".toList,
    formData := some [("file".toList, .file ⟨"application/pdf".toList, [37, 80, 68, 70]⟩)] }

/-- A run in which deleting the old file fails with a permission error. -/
def rmFault : Faults :=
  { Faults.none with rm := some "Error: EPERM: operation not permitted, rm".toList }

/-- A run in which writing the new file fails because the disk is full. -/
def writeFault : Faults :=
  { Faults.none with writeFile := some "Error: ENOSPC: no space left on device, write".toList }

/-- A run in which the database update fails. -/
def updateFault : Faults :=
  { Faults.none with updateOne := some "MongoNetworkError: connection closed".toList }

/-- A second draw of `crypto.randomBytes(32)`. -/
def exampleRandom2 : List Nat := List.replicate 32 170

/-- A third draw of `crypto.randomBytes(32)`. -/
def exampleRandom3 : List Nat := List.replicate 32 187

/-- The URL of the PNG named after a random buffer. -/
def pngUrlOf (randomBytes : List Nat) : Str :=
  "/profile-images/".toList ++ toHex randomBytes ++ ".png".toList

/-- The path below `/app/public` of the PNG named after a random buffer. -/
def pngPathOf (randomBytes : List Nat) : Str :=
  "/app/public".toList ++ pngUrlOf randomBytes

/-- The state after a first upload by the user without an image whose database
update failed: the new file is on disk and no record references it. -/
def orphanWorld : World :=
  (POST exampleCwd exampleRandom updateFault freshWorld (some exampleId) pngRequest).2

/-- The state after a second upload, which succeeds: the record references the
second file, stored by that upload. -/
def secondUploadWorld : World :=
  (POST exampleCwd exampleRandom2 Faults.none orphanWorld (some exampleId) pngRequest).2

/-! ## The normaliser as the spec words it -/

/-- The 24-character substring of `t` that starts at index `i`, provided it exists
and consists of hexadecimal characters only. -/
def hexWindowAt (t : Str) (i : Nat) : Option Str :=
  let w := (t.drop i).take 24
  if w.length = 24 ∧ ∀ c ∈ w, isHexChar c = true then some w else none

/-- The leftmost 24-hexadecimal-character substring of `t`: the window at the
least start index at which there is one. -/
def leftmostHex24 (t : Str) : Option Str :=
  (List.range (t.length + 1)).findSome? (hexWindowAt t)

/-- The three-step cascade of the spec: an absent or empty identifier gives the
null filter; otherwise the trimmed value is used directly when it is a valid
canonical identifier, else its leftmost embedded 24-hex substring, else the
trimmed value as a literal key. -/
def normalizeIdSpec (id : Option Str) : Option Filter :=
  match id with
  | none => none
  | some s =>
    if s = [] then none
    else if ObjectId.isValid (trim s) then some ⟨.oid (ObjectId.ofHex (trim s))⟩
    else
      match leftmostHex24 (trim s) with
      | some w => some ⟨.oid (ObjectId.ofHex w)⟩
      | none => some ⟨.lit (trim s)⟩

/-! ## Well-formed working directories -/

/-- A path segment as it occurs in a normalised path: not empty, without `/`,
and neither `.` nor `..`. -/
def isPlainSegment (seg : Str) : Prop :=
  seg ≠ [] ∧ '/' ∉ seg ∧ seg ≠ ['.'] ∧ seg ≠ ['.', '.']

instance (seg : Str) : Decidable (isPlainSegment seg) := by
  unfold isPlainSegment
  exact inferInstance

/-- The absolute normalised path with the given segments, which is the shape of
every value of `process.cwd()`; no segments gives the root `/`. -/
def absolutePath (segs : List Str) : Str :=
  '/' :: joinSlash segs

/-! ## Lemmas on the string primitives -/

theorem isJsWhitespace_of_isHexChar {c : Char} (h : isHexChar c = true) :
    isJsWhitespace c = false := by
  simp only [isHexChar, Bool.or_eq_true, Bool.and_eq_true, decide_eq_true_eq] at h
  simp only [isJsWhitespace, Bool.or_eq_false_iff, Bool.and_eq_false_iff, beq_eq_false_iff_ne,
    decide_eq_false_iff_not]
  omega

theorem dropWhile_of_head {p : Char → Bool} {s : Str}
    (h : ∀ c, s.head? = some c → p c = false) : s.dropWhile p = s := by
  cases s with
  | nil => rfl
  | cons a t =>
    have ha := h a rfl
    simp [List.dropWhile, ha]

/-- Trimming leaves a string alone when neither end is white space. -/
theorem trim_eq_self {s : Str} (hfirst : ∀ c, s.head? = some c → isJsWhitespace c = false)
    (hlast : ∀ c, s.getLast? = some c → isJsWhitespace c = false) : trim s = s := by
  unfold trim
  rw [dropWhile_of_head hfirst, dropWhile_of_head, List.reverse_reverse]
  intro c hc
  rw [List.head?_reverse] at hc
  exact hlast c hc

theorem hexRun_append {h : Str} (hhex : ∀ c ∈ h, isHexChar c = true) (rest : Str) :
    hexRun h.length (h ++ rest) = true := by
  induction h with
  | nil => rfl
  | cons a t ih =>
    have ha := hhex a (List.mem_cons_self a t)
    have ht := ih (fun c hc => hhex c (List.mem_cons_of_mem a hc))
    simp [hexRun, ha, ht]

theorem hexRun_length_le : ∀ (n : Nat) (s : Str), hexRun n s = true → n ≤ s.length
  | 0, _, _ => Nat.zero_le _
  | n + 1, [], h => by simp [hexRun] at h
  | n + 1, c :: cs, h => by
    simp only [hexRun, Bool.and_eq_true] at h
    have := hexRun_length_le n cs h.2
    simp only [List.length_cons]
    omega

theorem hexRun_take : ∀ (n : Nat) (s : Str), hexRun n s = true →
    ∀ c ∈ s.take n, isHexChar c = true
  | 0, _, _ => by simp
  | n + 1, [], h => by simp [hexRun] at h
  | n + 1, c :: cs, h => by
    simp only [hexRun, Bool.and_eq_true] at h
    intro x hx
    simp only [List.take_succ_cons, List.mem_cons] at hx
    rcases hx with rfl | hx
    · exact h.1
    · exact hexRun_take n cs h.2 x hx

theorem isValid_of_hex {h : Str} (hlen : h.length = 24) (hhex : ∀ c ∈ h, isHexChar c = true) :
    ObjectId.isValid h = true := by
  simp only [ObjectId.isValid, Bool.and_eq_true, beq_iff_eq, List.all_eq_true]
  exact ⟨hlen, hhex⟩

/-- What the regular expression returns is always a valid canonical identifier, so
the second test of `normalizeId` never fails. -/
theorem matchHex24_isValid : ∀ (s m : Str), matchHex24 s = some m → ObjectId.isValid m = true
  | [], m, h => by simp [matchHex24] at h
  | c :: cs, m, h => by
    unfold matchHex24 at h
    by_cases hr : hexRun 24 (c :: cs) = true
    · rw [if_pos hr] at h
      cases h
      apply isValid_of_hex
      · have := hexRun_length_le 24 _ hr
        simp only [List.length_take]
        omega
      · exact hexRun_take 24 _ hr
    · rw [if_neg hr] at h
      exact matchHex24_isValid cs m h

/-! ## The normaliser on canonical and embedded identifiers -/

theorem normalizeId_some {s : Str} (hs : s ≠ []) :
    normalizeId (some s) =
      if ObjectId.isValid (trim s) then some ⟨.oid (ObjectId.ofHex (trim s))⟩
      else match matchHex24 (trim s) with
        | some m => some ⟨.oid (ObjectId.ofHex m)⟩
        | none => some ⟨.lit (trim s)⟩ := by
  have he : s.isEmpty = false := by
    cases s with
    | nil => exact absurd rfl hs
    | cons a t => rfl
  simp only [normalizeId, he, Bool.false_eq_true, if_false]
  by_cases hv : ObjectId.isValid (trim s) = true
  · rw [if_pos hv, if_pos hv]
  · rw [if_neg hv, if_neg hv]
    cases hm : matchHex24 (trim s) with
    | none => rfl
    | some m =>
      simp only []
      rw [if_pos (matchHex24_isValid _ _ hm)]

/-- C8. For every string `h` of exactly 24 hexadecimal characters, `normalizeId(h)`
and `normalizeId("prefix-" + h + "-suffix")` return the same filter: the filter on
`_id` keyed on the object id of `h` itself. -/
theorem normalizeId_embedded_eq_canonical (h : Str) (hlen : h.length = 24)
    (hhex : ∀ c ∈ h, isHexChar c = true) :
    normalizeId (some h) = some ⟨.oid (ObjectId.ofHex h)⟩ ∧
    normalizeId (some ("prefix-".toList ++ h ++ "-suffix".toList)) =
      some ⟨.oid (ObjectId.ofHex h)⟩ := by
  have hvalid := isValid_of_hex hlen hhex
  have hne : h ≠ [] := by
    intro h0
    simp [h0] at hlen
  constructor
  · have htrim : trim h = h := by
      apply trim_eq_self
      · intro c hc
        exact isJsWhitespace_of_isHexChar (hhex c (List.mem_of_mem_head? hc))
      · intro c hc
        exact isJsWhitespace_of_isHexChar (hhex c (List.mem_of_mem_getLast? hc))
    rw [normalizeId_some hne, htrim, if_pos hvalid]
  · have hlast : ("prefix-".toList ++ h ++ "-suffix".toList).getLast? = some 'x' := by
      rw [List.getLast?_append]
      rfl
    have hhead : ("prefix-".toList ++ h ++ "-suffix".toList).head? = some 'p' := rfl
    have hrun : hexRun 24 (h ++ "-suffix".toList) = true := by
      have := hexRun_append hhex "-suffix".toList
      rwa [hlen] at this
    have hmatch : matchHex24 ("prefix-".toList ++ h ++ "-suffix".toList) = some h := by
      cases h with
      | nil => exact absurd rfl hne
      | cons a t =>
        have htake : List.take 24 (a :: t ++ "-suffix".toList) = a :: t :=
          List.take_left' hlen
        have e : "prefix-".toList ++ (a :: t) ++ "-suffix".toList =
            'p' :: 'r' :: 'e' :: 'f' :: 'i' :: 'x' :: '-' :: (a :: t ++ "-suffix".toList) := rfl
        rw [e]
        have n1 : isHexChar 'p' = false := by decide
        have n2 : isHexChar 'r' = false := by decide
        have n3 : isHexChar 'i' = false := by decide
        have n4 : isHexChar 'x' = false := by decide
        have n5 : isHexChar '-' = false := by decide
        have s1 : ∀ r, hexRun 24 ('p' :: r) = false := fun r => by simp [hexRun, n1]
        have s2 : ∀ r, hexRun 24 ('r' :: r) = false := fun r => by simp [hexRun, n2]
        have s3 : ∀ r, hexRun 24 ('e' :: 'f' :: 'i' :: r) = false := fun r => by
          simp [hexRun, n3]
        have s4 : ∀ r, hexRun 24 ('f' :: 'i' :: r) = false := fun r => by simp [hexRun, n3]
        have s5 : ∀ r, hexRun 24 ('i' :: r) = false := fun r => by simp [hexRun, n3]
        have s6 : ∀ r, hexRun 24 ('x' :: r) = false := fun r => by simp [hexRun, n4]
        have s7 : ∀ r, hexRun 24 ('-' :: r) = false := fun r => by simp [hexRun, n5]
        have hrun' : hexRun 24 (a :: (t ++ "-suffix".toList)) = true := hrun
        have htake' : List.take 24 (a :: (t ++ "-suffix".toList)) = a :: t := htake
        show matchHex24 ('p' :: 'r' :: 'e' :: 'f' :: 'i' :: 'x' :: '-' ::
          (a :: (t ++ "-suffix".toList))) = some (a :: t)
        simp only [matchHex24, s1, s2, s3, s4, s5, s6, s7, Bool.false_eq_true, if_false,
          hrun', if_true, htake']
    generalize hW : "prefix-".toList ++ h ++ "-suffix".toList = W at hlast hhead hmatch
    have hWne : W ≠ [] := by
      intro h0
      simp [h0] at hhead
    have hWlen : W.length = 38 := by
      rw [← hW]
      simp [hlen]
    have htrim : trim W = W := by
      apply trim_eq_self
      · intro c hc
        have : c = 'p' := by
          rw [hhead] at hc
          exact (Option.some.inj hc).symm
        subst this
        decide
      · intro c hc
        have : c = 'x' := by
          rw [hlast] at hc
          exact (Option.some.inj hc).symm
        subst this
        decide
    have hinvalid : ¬ ObjectId.isValid W = true := by
      simp [ObjectId.isValid, hWlen]
    rw [normalizeId_some hWne, htrim, if_neg hinvalid, hmatch]

/-- Witness for C8 at the identifier of the spec's example user. -/
theorem normalizeId_embedded_eq_canonical_witness :
    normalizeId (some "507f1f77bcf86cd799439011".toList) =
      some ⟨.oid (ObjectId.ofHex "507f1f77bcf86cd799439011".toList)⟩ ∧
    normalizeId (some ("prefix-".toList ++ "507f1f77bcf86cd799439011".toList ++
        "-suffix".toList)) =
      some ⟨.oid (ObjectId.ofHex "507f1f77bcf86cd799439011".toList)⟩ :=
  normalizeId_embedded_eq_canonical "507f1f77bcf86cd799439011".toList (by decide) (by decide)

/-! ## The normaliser against the cascade of the spec -/

theorem hexRun_iff_take : ∀ (n : Nat) (s : Str),
    hexRun n s = true ↔ (s.take n).length = n ∧ ∀ c ∈ s.take n, isHexChar c = true
  | 0, s => by simp [hexRun]
  | n + 1, [] => by simp [hexRun]
  | n + 1, c :: cs => by
    simp only [hexRun, Bool.and_eq_true, List.take_succ_cons, List.length_cons,
      Nat.add_right_cancel_iff, List.mem_cons, forall_eq_or_imp, hexRun_iff_take n cs]
    tauto

theorem hexWindowAt_zero (t : Str) :
    hexWindowAt t 0 = if hexRun 24 t then some (t.take 24) else none := by
  unfold hexWindowAt
  simp only [List.drop_zero]
  by_cases h : hexRun 24 t = true
  · rw [if_pos h, if_pos ((hexRun_iff_take 24 t).1 h)]
  · rw [if_neg h, if_neg (fun h' => h ((hexRun_iff_take 24 t).2 h'))]

theorem hexWindowAt_succ (c : Char) (cs : Str) (i : Nat) :
    hexWindowAt (c :: cs) (i + 1) = hexWindowAt cs i := rfl

/-- The scan of the regular expression finds the leftmost hexadecimal window. -/
theorem matchHex24_eq_leftmost : ∀ t : Str, matchHex24 t = leftmostHex24 t
  | [] => by decide
  | c :: cs => by
    have ih := matchHex24_eq_leftmost cs
    unfold leftmostHex24 at ih ⊢
    rw [List.length_cons, List.range_succ_eq_map, List.findSome?_cons, List.findSome?_map,
      hexWindowAt_zero]
    have hcomp : hexWindowAt (c :: cs) ∘ Nat.succ = hexWindowAt cs := by
      funext i
      exact hexWindowAt_succ c cs i
    rw [hcomp, ← ih]
    have hm : matchHex24 (c :: cs) =
        if hexRun 24 (c :: cs) then some ((c :: cs).take 24) else matchHex24 cs := by
      rw [matchHex24]
    rw [hm]
    by_cases h : hexRun 24 (c :: cs) = true
    · simp only [h, if_true]
    · simp only [h, if_false, Bool.false_eq_true]

theorem trim_of_all_whitespace {s : Str} (h : ∀ c ∈ s, isJsWhitespace c = true) :
    trim s = [] := by
  unfold trim
  have : s.dropWhile isJsWhitespace = [] := List.dropWhile_eq_nil_iff.2 h
  rw [this]
  rfl

theorem normalizeId_eq_none_iff (id : Option Str) :
    normalizeId id = none ↔ id = none ∨ id = some [] := by
  cases id with
  | none => simp [normalizeId]
  | some s =>
    by_cases hs : s = []
    · subst hs
      simp [normalizeId]
    · rw [normalizeId_some hs]
      simp only [reduceCtorEq, Option.some.injEq, hs, or_self, iff_false]
      by_cases hv : ObjectId.isValid (trim s) = true
      · simp [hv]
      · rw [if_neg hv]
        cases matchHex24 (trim s) <;> simp

/-- C10. `normalizeId` is a total function that equals the cascade of the spec;
it returns the null filter exactly when the raw identifier is absent or the empty
string, in which case `POST` and `DELETE` answer 400; and a non-empty identifier
made of white space only gets the literal filter keyed on the empty string. -/
theorem normalizeId_refines_spec (id : Option Str) :
    normalizeId id = normalizeIdSpec id ∧
    (normalizeId id = none ↔ id = none ∨ id = some []) ∧
    (normalizeId id = none → ∀ cwd randomBytes faults w req,
      (POST cwd randomBytes faults w id req).1.status = 400 ∧
      (DELETE cwd faults w id).1.status = 400) ∧
    (∀ s, id = some s → s ≠ [] → (∀ c ∈ s, isJsWhitespace c = true) →
      normalizeId id = some ⟨.lit []⟩) := by
  refine ⟨?_, normalizeId_eq_none_iff id, ?_, ?_⟩
  · cases id with
    | none => rfl
    | some s =>
      by_cases hs : s = []
      · subst hs
        rfl
      · rw [normalizeId_some hs]
        simp only [normalizeIdSpec, hs, if_false, matchHex24_eq_leftmost]
  · intro hnone cwd randomBytes faults w req
    simp [POST, DELETE, hnone]
  · intro s hid hs hws
    subst hid
    rw [normalizeId_some hs, trim_of_all_whitespace hws]
    rfl

/-- Witness for C10: the identifier made of two blanks is not empty, so it is
normalised to the literal filter on the empty string. -/
theorem normalizeId_refines_spec_witness :
    normalizeId (some "  ".toList) = some ⟨.lit []⟩ ∧
    normalizeId (some "  ".toList) = normalizeIdSpec (some "  ".toList) :=
  ⟨(normalizeId_refines_spec (some "  ".toList)).2.2.2 "  ".toList rfl (by decide) (by decide),
   (normalizeId_refines_spec (some "  ".toList)).1⟩

/-! ## Path resolution -/

theorem splitSlash_ne_nil : ∀ s : Str, splitSlash s ≠ []
  | [] => by simp [splitSlash]
  | c :: cs => by
    unfold splitSlash
    by_cases hc : c = '/'
    · simp [hc]
    · rw [if_neg hc]
      cases h : splitSlash cs with
      | nil => simp
      | cons seg rest => simp

theorem splitSlash_append_slash : ∀ a b : Str,
    splitSlash (a ++ '/' :: b) = splitSlash a ++ splitSlash b
  | [], b => by simp [splitSlash]
  | c :: a, b => by
    have ih := splitSlash_append_slash a b
    by_cases hc : c = '/'
    · simp [splitSlash, hc, ih]
    · cases h : splitSlash a with
      | nil => exact absurd h (splitSlash_ne_nil a)
      | cons seg rest =>
        rw [h] at ih
        simp [splitSlash, hc, ih, h]

theorem splitSlash_of_no_slash : ∀ s : Str, '/' ∉ s → splitSlash s = [s]
  | [], _ => rfl
  | c :: cs, h => by
    have hc : c ≠ '/' := fun e => h (by simp [e])
    have hcs : '/' ∉ cs := fun e => h (List.mem_cons_of_mem c e)
    simp [splitSlash, hc, splitSlash_of_no_slash cs hcs]

theorem normalizeStep_plain (allow : Bool) (stack : List Str) {seg : Str}
    (h : isPlainSegment seg) : normalizeStep allow stack seg = seg :: stack := by
  obtain ⟨h1, _, h3, h4⟩ := h
  simp [normalizeStep, h1, h3, h4]

theorem foldl_normalizeStep_plain (allow : Bool) : ∀ (segs : List Str) (stack : List Str),
    (∀ seg ∈ segs, isPlainSegment seg) →
    segs.foldl (normalizeStep allow) stack = segs.reverse ++ stack
  | [], stack, _ => rfl
  | seg :: rest, stack, h => by
    have hseg := h seg (List.mem_cons_self seg rest)
    have hrest : ∀ x ∈ rest, isPlainSegment x := fun x hx => h x (List.mem_cons_of_mem seg hx)
    rw [List.foldl_cons, normalizeStep_plain allow stack hseg,
      foldl_normalizeStep_plain allow rest (seg :: stack) hrest]
    simp

/-- Normalising the segments of a joined list of plain segments gives them back. -/
theorem foldl_splitSlash_joinSlash (allow : Bool) : ∀ (segs : List Str) (stack : List Str),
    (∀ seg ∈ segs, isPlainSegment seg) →
    (splitSlash (joinSlash segs)).foldl (normalizeStep allow) stack = segs.reverse ++ stack
  | [], stack, _ => by simp [joinSlash, splitSlash, normalizeStep]
  | [seg], stack, h => by
    have hseg := h seg (List.mem_singleton_self seg)
    rw [joinSlash, splitSlash_of_no_slash seg hseg.2.1]
    simp [normalizeStep_plain allow stack hseg]
  | seg :: t :: rest, stack, h => by
    have hseg := h seg (List.mem_cons_self seg _)
    have hrest : ∀ x ∈ t :: rest, isPlainSegment x :=
      fun x hx => h x (List.mem_cons_of_mem seg hx)
    rw [joinSlash, splitSlash_append_slash, splitSlash_of_no_slash seg hseg.2.1,
      List.foldl_append, List.foldl_cons, List.foldl_nil, normalizeStep_plain allow stack hseg,
      foldl_splitSlash_joinSlash allow (t :: rest) (seg :: stack) hrest]
    simp

theorem joinSlash_append_singleton : ∀ (segs : List Str) (seg : Str), segs ≠ [] →
    joinSlash (segs ++ [seg]) = joinSlash segs ++ '/' :: seg
  | [], _, h => absurd rfl h
  | [s], seg, _ => by simp [joinSlash]
  | s :: t :: rest, seg, _ => by
    have ih := joinSlash_append_singleton (t :: rest) seg (by simp)
    simp only [List.cons_append] at ih ⊢
    rw [joinSlash, ih, joinSlash]
    simp

theorem joinSlash_ne_nil : ∀ (segs : List Str), segs ≠ [] → (∀ seg ∈ segs, seg ≠ []) →
    joinSlash segs ≠ []
  | [], h, _ => absurd rfl h
  | [s], _, h => by
    simpa [joinSlash] using h s (List.mem_singleton_self s)
  | s :: t :: rest, _, _ => by simp [joinSlash]

theorem startsWith_append : ∀ (p rest : Str), startsWith (p ++ rest) p = true
  | [], rest => by cases rest <;> rfl
  | c :: p, rest => by simp [startsWith, startsWith_append p rest]

theorem pathNormalize_absolute (segs tail : List Str) (name : Str)
    (hsegs : ∀ seg ∈ segs, isPlainSegment seg) (htail : ∀ seg ∈ tail, isPlainSegment seg)
    (hname : isPlainSegment name) (body : Str)
    (hsplit : splitSlash body = splitSlash (joinSlash segs) ++ (tail ++ [name]))
    (hlast : body.getLast? = name.getLast?) :
    pathNormalize ('/' :: body) = absolutePath (segs ++ tail ++ [name]) := by
  have hfold : (splitSlash ('/' :: body)).foldl (normalizeStep false) [] =
      (segs ++ tail ++ [name]).reverse := by
    have h0 : splitSlash ('/' :: body) = [] :: splitSlash body := by simp [splitSlash]
    rw [h0, List.foldl_cons, hsplit, List.foldl_append, foldl_splitSlash_joinSlash false segs _ hsegs]
    have h1 : normalizeStep false [] [] = [] := by simp [normalizeStep]
    rw [h1, foldl_normalizeStep_plain false (tail ++ [name])]
    · simp
    · intro seg hseg
      rcases List.mem_append.1 hseg with h | h
      · exact htail seg h
      · rw [List.mem_singleton.1 h]
        exact hname
  have hne : joinSlash (segs ++ tail ++ [name]) ≠ [] := by
    apply joinSlash_ne_nil
    · simp
    · intro seg hseg
      rcases List.mem_append.1 hseg with h | h
      · rcases List.mem_append.1 h with h | h
        · exact (hsegs seg h).1
        · exact (htail seg h).1
      · rw [List.mem_singleton.1 h]
        exact hname.1
  have htrail : ¬ (('/' :: body).getLast? = some '/') := by
    have hb : body ≠ [] := by
      intro hb
      rw [hb] at hlast
      exact hname.1 (List.getLast?_eq_none_iff.1 hlast.symm)
    cases body with
    | nil => exact absurd rfl hb
    | cons b bs =>
      rw [List.getLast?_cons_cons, hlast]
      intro h
      exact hname.2.1 (List.mem_of_mem_getLast? h)
  unfold pathNormalize normalizeString
  simp only [List.head?_cons, Bool.not_true, decide_True, hfold, List.reverse_reverse]
  rw [if_neg (by simp), if_neg hne]
  simp only [htrail, decide_False, Bool.false_eq_true, if_false, if_true]
  rfl

/-- A URL under the public prefix whose remainder is a single plain file name
resolves to that file in `public/profile-images` below the working directory. -/
theorem getPublicImagePath_of_name (segs : List Str) (name : Str)
    (hsegs : ∀ seg ∈ segs, isPlainSegment seg) (hname : isPlainSegment name) :
    getPublicImagePath (absolutePath segs) (.str (publicPrefix ++ name)) =
      some (absolutePath (segs ++ ["public".toList, "profile-images".toList] ++ [name])) := by
  have hstarts := startsWith_append publicPrefix name
  have hstrip : stripLeadingSlash (publicPrefix ++ name) = "profile-images".toList ++ '/' :: name :=
    rfl
  have hjoin : joinArgs none [absolutePath segs, "public".toList,
      "profile-images".toList ++ '/' :: name] =
      some ('/' :: (joinSlash segs ++ '/' :: ("public".toList ++
        '/' :: ("profile-images".toList ++ '/' :: name)))) := by
    simp [joinArgs, absolutePath, String.toList]
  have hempty : (publicPrefix ++ name).isEmpty = false := rfl
  simp only [getPublicImagePath, hempty, hstarts, hstrip, pathJoin, hjoin, Bool.false_eq_true,
    if_false, Bool.not_true, Option.some.injEq]
  apply pathNormalize_absolute segs _ name hsegs _ hname
  · rw [splitSlash_append_slash, splitSlash_append_slash, splitSlash_append_slash,
      splitSlash_of_no_slash _ hname.2.1,
      splitSlash_of_no_slash "public".toList (by decide),
      splitSlash_of_no_slash "profile-images".toList (by decide)]
    simp
  · have hn : name ≠ [] := hname.1
    rw [List.getLast?_append, List.getLast?_cons, List.getLast?_append, List.getLast?_cons,
      List.getLast?_append, List.getLast?_cons]
    cases hl : name.getLast? with
    | none => exact absurd (List.getLast?_eq_none_iff.1 hl) hn
    | some c => rfl
  · intro seg hseg
    simp only [List.mem_cons, List.mem_singleton, List.not_mem_nil, or_false] at hseg
    rcases hseg with rfl | rfl <;> decide

theorem absolutePath_append_public (segs : List Str) (name : Str) :
    absolutePath (segs ++ ["public".toList, "profile-images".toList] ++ [name]) =
      if segs = [] then "/public/profile-images/".toList ++ name
      else absolutePath segs ++ "/public/profile-images/".toList ++ name := by
  by_cases h : segs = []
  · subst h
    simp [absolutePath, joinSlash, String.toList]
  · rw [if_neg h]
    have h1 : segs ++ ["public".toList, "profile-images".toList] ++ [name] =
        ((segs ++ ["public".toList]) ++ ["profile-images".toList]) ++ [name] := by simp
    rw [h1, absolutePath, joinSlash_append_singleton _ _ (by simp),
      joinSlash_append_singleton _ _ (by simp), joinSlash_append_singleton _ _ h]
    simp [absolutePath, String.toList]

/-- C9. `getPublicImagePath` returns `null` for every input that is absent, not
a string, or a string that does not start with `/profile-images/` (among them
`""`, `/etc/passwd` and `../../secret`); and for `/profile-images/abc.png` it
returns `<cwd>/public/profile-images/abc.png`, for every working directory; the
result lies under the working directory and ends in `profile-images/abc.png`. -/
theorem getPublicImagePath_prefix_gate (cwd : Str) :
    (∀ v : JsVal, (∀ s, v = .str s → startsWith s publicPrefix = false) →
      getPublicImagePath cwd v = none) ∧
    getPublicImagePath cwd .null = none ∧
    getPublicImagePath cwd .undefined = none ∧
    getPublicImagePath cwd (.str "".toList) = none ∧
    getPublicImagePath cwd (.str "/etc/passwd".toList) = none ∧
    getPublicImagePath cwd (.str "../../secret".toList) = none ∧
    (∀ segs : List Str, (∀ seg ∈ segs, isPlainSegment seg) → cwd = absolutePath segs →
      ∃ p, getPublicImagePath cwd (.str "/profile-images/abc.png".toList) = some p ∧
        p = (if segs = [] then "/public/profile-images/abc.png".toList
             else cwd ++ "/public/profile-images/abc.png".toList) ∧
        cwd <+: p ∧ "profile-images/abc.png".toList <:+ p) := by
  refine ⟨?_, rfl, rfl, rfl, rfl, rfl, ?_⟩
  · intro v hv
    cases v with
    | undefined => rfl
    | null => rfl
    | other t => rfl
    | str s =>
      have := hv s rfl
      simp [getPublicImagePath, this]
  · intro segs hsegs hcwd
    subst hcwd
    have hres := getPublicImagePath_of_name segs "abc.png".toList hsegs (by decide)
    rw [absolutePath_append_public] at hres
    refine ⟨_, hres, ?_, ?_, ?_⟩
    · by_cases h : segs = []
      · simp [h]
      · simp only [h, if_false, List.append_assoc]
        rfl
    · by_cases h : segs = []
      · subst h
        exact ⟨"public/profile-images/abc.png".toList, by simp [absolutePath, joinSlash]⟩
      · simp only [h, if_false, List.append_assoc]
        exact List.prefix_append _ _
    · by_cases h : segs = []
      · subst h
        exact ⟨"/public/".toList, rfl⟩
      · simp only [h, if_false]
        exact ⟨absolutePath segs ++ "/public/".toList, by simp⟩

/-- Witness for C9 with working directory `/app`. -/
theorem getPublicImagePath_prefix_gate_witness :
    getPublicImagePath "/app".toList (.str "/var/profile-images/a.png".toList) = none ∧
    ∃ p, getPublicImagePath "/app".toList (.str "/profile-images/abc.png".toList) = some p ∧
      p = (if ["app".toList] = [] then "/public/profile-images/abc.png".toList
           else "/app".toList ++ "/public/profile-images/abc.png".toList) ∧
      "/app".toList <+: p ∧ "profile-images/abc.png".toList <:+ p :=
  ⟨(getPublicImagePath_prefix_gate "/app".toList).1 (.str "/var/profile-images/a.png".toList)
      (by intro s hs; cases hs; decide),
   (getPublicImagePath_prefix_gate "/app".toList).2.2.2.2.2.2 ["app".toList] (by decide) rfl⟩

/-- C1. The URL `/profile-images/../../etc/passwd` starts with the public prefix,
so `getPublicImagePath` does not reject it: `path.join` resolves the `..` segments
and the result is `/app/etc/passwd`, which is outside `/app/public/profile-images/`. -/
theorem getPublicImagePath_traversal :
    getPublicImagePath "/app".toList (.str "/profile-images/../../etc/passwd".toList) =
      some "/app/etc/passwd".toList ∧
    ¬ ("/app/public/profile-images/".toList <+: "/app/etc/passwd".toList) := by
  constructor
  · decide
  · decide

/-! ## Lemmas on the file store and the user collection -/

theorem readFile_rmForce_self (path : Str) : ∀ files : List (Str × List Nat),
    readFile (rmForce files path) path = none
  | [] => rfl
  | (k, v) :: rest => by
    have ih := readFile_rmForce_self path rest
    unfold readFile at ih ⊢
    by_cases h : k = path
    · simp [rmForce, h, ih]
    · simp [rmForce, h, assocGet, ih]

theorem readFile_writeFile_self (files : List (Str × List Nat)) (path : Str) (data : List Nat) :
    readFile (writeFile files path data) path = some data := by
  simp [readFile, writeFile, assocGet]

theorem readFile_rmForce_of_ne (path other : Str) (h : other ≠ path) :
    ∀ files : List (Str × List Nat), readFile (rmForce files path) other = readFile files other
  | [] => rfl
  | (k, v) :: rest => by
    have ih := readFile_rmForce_of_ne path other h rest
    unfold readFile at ih ⊢
    by_cases hk : k = path
    · have hpo : ¬ path = other := fun e => h e.symm
      simp [rmForce, hk, assocGet, ih, hpo]
    · by_cases hko : k = other
      · subst hko
        simp [rmForce, h, assocGet]
      · simp [rmForce, hk, assocGet, hko, ih]

theorem readFile_writeFile_of_ne (files : List (Str × List Nat)) (path other : Str)
    (data : List Nat) (h : other ≠ path) :
    readFile (writeFile files path data) other = readFile (rmForce files path) other := by
  have h' : path ≠ other := fun e => h e.symm
  simp [readFile, writeFile, assocGet, h']

theorem findOne_id : ∀ (users : List User) (filter : Filter) (u : User),
    findOne users filter = some u → u._id = filter._id
  | [], _, _, h => by simp [findOne] at h
  | v :: rest, filter, u, h => by
    unfold findOne at h
    by_cases hv : v._id = filter._id
    · rw [if_pos hv] at h
      cases h
      exact hv
    · rw [if_neg hv] at h
      exact findOne_id rest filter u h

/-- After `updateOne` on the `_id` of the user returned by `findOne`, the same
query returns that user with the new `profileImage`. -/
theorem findOne_updateOne : ∀ (users : List User) (filter : Filter) (u : User) (v : JsVal),
    findOne users filter = some u →
    findOne (updateOne users u._id v) filter = some { u with profileImage := v }
  | [], _, _, _, h => by simp [findOne] at h
  | x :: rest, filter, u, v, h => by
    have hid := findOne_id _ _ _ h
    unfold findOne at h
    by_cases hx : x._id = filter._id
    · rw [if_pos hx] at h
      cases h
      simp [updateOne, findOne, hx]
    · rw [if_neg hx] at h
      have hx' : ¬ x._id = u._id := by
        rw [hid]
        exact hx
      have ih := findOne_updateOne rest filter u v h
      simp [updateOne, findOne, hx, hx', ih]

theorem getPublicImagePath_isSome (cwd : Str) (rest : Str) :
    ∃ path, getPublicImagePath cwd (.str (publicPrefix ++ rest)) = some path := by
  have hstarts := startsWith_append publicPrefix rest
  have hempty : (publicPrefix ++ rest).isEmpty = false := rfl
  refine ⟨pathJoin [cwd, "public".toList, stripLeadingSlash (publicPrefix ++ rest)], ?_⟩
  simp only [getPublicImagePath, hempty, hstarts, Bool.false_eq_true, if_false, Bool.not_true]

theorem toHex_length : ∀ bytes : List Nat, (toHex bytes).length = 2 * bytes.length
  | [] => rfl
  | b :: rest => by
    simp only [toHex, List.length_cons, toHex_length rest]
    omega

theorem isHexChar_hexDigit (n : Nat) (h : n < 16) : isHexChar (hexDigit n) = true := by
  have : n = 0 ∨ n = 1 ∨ n = 2 ∨ n = 3 ∨ n = 4 ∨ n = 5 ∨ n = 6 ∨ n = 7 ∨ n = 8 ∨ n = 9 ∨
      n = 10 ∨ n = 11 ∨ n = 12 ∨ n = 13 ∨ n = 14 ∨ n = 15 := by omega
  rcases this with h | h | h | h | h | h | h | h | h | h | h | h | h | h | h | h <;>
    subst h <;> decide

theorem toHex_hex : ∀ (bytes : List Nat) (c : Char), c ∈ toHex bytes → isHexChar c = true
  | [], c, h => by simp [toHex] at h
  | b :: rest, c, h => by
    simp only [toHex, List.mem_cons] at h
    rcases h with rfl | rfl | h
    · exact isHexChar_hexDigit _ (Nat.mod_lt _ (by decide))
    · exact isHexChar_hexDigit _ (Nat.mod_lt _ (by decide))
    · exact toHex_hex rest c h

theorem allowedImageType_of_mem {m ext : Str} (h : (m, ext) ∈ ALLOWED_IMAGE_TYPES) :
    allowedImageType m = some ext := by
  simp only [ALLOWED_IMAGE_TYPES, List.mem_cons, Prod.mk.injEq, List.mem_singleton,
    List.not_mem_nil, or_false] at h
  rcases h with ⟨rfl, rfl⟩ | ⟨rfl, rfl⟩ | ⟨rfl, rfl⟩ | ⟨rfl, rfl⟩ <;> decide

/-! ## The handlers -/

/-- The truthiness test in front of `getPublicImagePath` changes nothing: a falsy
`profileImage` does not resolve anyway. -/
theorem removeOldImage_eq (cwd : Str) (faults : Faults) (w : World) (u : User) :
    removeOldImage cwd faults w u =
      match getPublicImagePath cwd u.profileImage with
      | some oldFilePath =>
        (match faults.rm with
          | some e => .error e
          | none => .ok { w with files := rmForce w.files oldFilePath })
      | none => .ok w := by
  unfold removeOldImage
  cases hp : u.profileImage with
  | undefined => rfl
  | null => rfl
  | other t => cases t <;> rfl
  | str s =>
    cases s with
    | nil => rfl
    | cons a t => rfl

theorem removeOldImage_users {cwd : Str} {faults : Faults} {w w1 : World} {u : User}
    (h : removeOldImage cwd faults w u = .ok w1) : w1.users = w.users := by
  rw [removeOldImage_eq] at h
  cases hp : getPublicImagePath cwd u.profileImage with
  | none =>
    rw [hp] at h
    cases h
    rfl
  | some oldFilePath =>
    rw [hp] at h
    cases hr : faults.rm with
    | some e =>
      rw [hr] at h
      cases h
    | none =>
      rw [hr] at h
      cases h
      rfl

/-- A request that passes validation enters the `try` block with the generated
URL and its resolved path; the path always resolves. -/
theorem POST_of_valid (cwd : Str) (randomBytes : List Nat) (faults : Faults) (w : World)
    {id : Option Str} {req : Request} {filter : Filter} {fd : List (Str × FormValue)}
    {file : UploadedFile} {ext : Str}
    (hid : normalizeId id = some filter) (hparse : parseMultipartFormData req = some fd)
    (hfile : assocGet "file".toList fd = some (.file file))
    (htype : allowedImageType file.type = some ext) :
    ∃ savePath,
      getPublicImagePath cwd (.str (publicPrefix ++ getNewImageName randomBytes file.type)) =
        some savePath ∧
      POST cwd randomBytes faults w id req =
        postTry cwd faults w filter file (publicPrefix ++ getNewImageName randomBytes file.type)
          savePath := by
  obtain ⟨savePath, hsave⟩ := getPublicImagePath_isSome cwd (getNewImageName randomBytes file.type)
  refine ⟨savePath, hsave, ?_⟩
  have hsave' : getPublicImagePath cwd
      (.str ("/profile-images/".toList ++ getNewImageName randomBytes file.type)) =
      some savePath := hsave
  simp only [POST, hid, hparse, hfile, htype, hsave']
  rfl

/-- Every run of `POST` either stops at validation with status 400 and the world
untouched, or enters the `try` block. -/
theorem POST_cases (cwd : Str) (randomBytes : List Nat) (faults : Faults) (w : World)
    (id : Option Str) (req : Request) :
    ((POST cwd randomBytes faults w id req).1.status = 400 ∧
      (POST cwd randomBytes faults w id req).2 = w) ∨
    ∃ filter fd file ext, normalizeId id = some filter ∧
      parseMultipartFormData req = some fd ∧
      assocGet "file".toList fd = some (.file file) ∧
      allowedImageType file.type = some ext := by
  cases hid : normalizeId id with
  | none =>
    left
    refine ⟨?_, ?_⟩ <;> simp only [POST, hid]
  | some filter =>
    cases hparse : parseMultipartFormData req with
    | none =>
      left
      refine ⟨?_, ?_⟩ <;> simp only [POST, hid, hparse]
    | some fd =>
      cases hfile : assocGet "file".toList fd with
      | none =>
        left
        refine ⟨?_, ?_⟩ <;> simp only [POST, hid, hparse, hfile]
      | some v =>
        cases v with
        | text t =>
          left
          refine ⟨?_, ?_⟩ <;> simp only [POST, hid, hparse, hfile]
        | file file =>
          cases htype : allowedImageType file.type with
          | none =>
            left
            refine ⟨?_, ?_⟩ <;> simp only [POST, hid, hparse, hfile, htype]
          | some ext => exact Or.inr ⟨filter, fd, file, ext, rfl, rfl, hfile, htype⟩

theorem postTry_unchanged_of_4xx (cwd : Str) (faults : Faults) (w : World) (filter : Filter)
    (file : UploadedFile) (imageUrl savePath : Str)
    (h : (postTry cwd faults w filter file imageUrl savePath).1.status = 400 ∨
      (postTry cwd faults w filter file imageUrl savePath).1.status = 404) :
    (postTry cwd faults w filter file imageUrl savePath).2 = w := by
  revert h
  unfold postTry
  repeat' split
  all_goals simp

/-- C4. A `POST` or `DELETE` whose response status is 400 or 404 leaves the files
and the user collection exactly as they were. -/
theorem no_side_effects_on_4xx (cwd : Str) (randomBytes : List Nat) (faults : Faults)
    (w : World) (id : Option Str) (req : Request) :
    (((POST cwd randomBytes faults w id req).1.status = 400 ∨
        (POST cwd randomBytes faults w id req).1.status = 404) →
      (POST cwd randomBytes faults w id req).2 = w) ∧
    (((DELETE cwd faults w id).1.status = 400 ∨ (DELETE cwd faults w id).1.status = 404) →
      (DELETE cwd faults w id).2 = w) := by
  constructor
  · intro h
    rcases POST_cases cwd randomBytes faults w id req with hc | ⟨filter, fd, file, ext, h1, h2, h3, h4⟩
    · exact hc.2
    · obtain ⟨savePath, _, hpost⟩ := POST_of_valid cwd randomBytes faults w h1 h2 h3 h4
      rw [hpost] at h ⊢
      exact postTry_unchanged_of_4xx _ _ _ _ _ _ _ h
  · unfold DELETE
    repeat' split
    all_goals simp

/-- The run of the `try` block of `POST` in which no step throws. -/
theorem postTry_of_ok (cwd : Str) (faults : Faults) {w w1 : World} {filter : Filter}
    {u : User} (file : UploadedFile) (imageUrl savePath : Str)
    (hconnect : faults.connect = none) (hfind : faults.findOne = none)
    (huser : findOne w.users filter = some u)
    (hrm : removeOldImage cwd faults w u = .ok w1)
    (hbuffer : faults.arrayBuffer = none) (hmkdir : faults.mkdir = none)
    (hwrite : faults.writeFile = none) (hupdate : faults.updateOne = none) :
    postTry cwd faults w filter file imageUrl savePath =
      (⟨200, .imageUrl imageUrl⟩,
        ⟨writeFile w1.files savePath file.content, updateOne w1.users u._id (.str imageUrl)⟩) := by
  simp only [postTry, hconnect, hfind, huser, hrm, hbuffer, hmkdir, hwrite, hupdate]

/-- A response with status 200 from the `try` block of `POST` means that every
step ran and none threw. -/
theorem postTry_200_inv {cwd : Str} {faults : Faults} {w : World} {filter : Filter}
    {file : UploadedFile} {imageUrl savePath : Str}
    (h : (postTry cwd faults w filter file imageUrl savePath).1.status = 200) :
    ∃ u w1, findOne w.users filter = some u ∧ removeOldImage cwd faults w u = .ok w1 ∧
      postTry cwd faults w filter file imageUrl savePath =
        (⟨200, .imageUrl imageUrl⟩,
          ⟨writeFile w1.files savePath file.content,
            updateOne w1.users u._id (.str imageUrl)⟩) := by
  cases hconnect : faults.connect with
  | some e => simp [postTry, hconnect] at h
  | none =>
  cases hfind : faults.findOne with
  | some e => simp [postTry, hconnect, hfind] at h
  | none =>
  cases huser : findOne w.users filter with
  | none => simp [postTry, hconnect, hfind, huser] at h
  | some u =>
  cases hrm : removeOldImage cwd faults w u with
  | error e => simp [postTry, hconnect, hfind, huser, hrm] at h
  | ok w1 =>
  cases hbuffer : faults.arrayBuffer with
  | some e => simp [postTry, hconnect, hfind, huser, hrm, hbuffer] at h
  | none =>
  cases hmkdir : faults.mkdir with
  | some e => simp [postTry, hconnect, hfind, huser, hrm, hbuffer, hmkdir] at h
  | none =>
  cases hwrite : faults.writeFile with
  | some e => simp [postTry, hconnect, hfind, huser, hrm, hbuffer, hmkdir, hwrite] at h
  | none =>
  cases hupdate : faults.updateOne with
  | some e =>
    simp [postTry, hconnect, hfind, huser, hrm, hbuffer, hmkdir, hwrite, hupdate] at h
  | none =>
    exact ⟨u, w1, rfl, hrm,
      postTry_of_ok cwd faults file imageUrl savePath hconnect hfind huser hrm hbuffer hmkdir hwrite hupdate⟩

theorem removeOldImage_no_fault (cwd : Str) (faults : Faults) (w : World) (u : User)
    (hrm : faults.rm = none) :
    ∃ w1, removeOldImage cwd faults w u = .ok w1 ∧ w1.users = w.users ∧
      ∀ path, getPublicImagePath cwd u.profileImage = some path →
        w1.files = rmForce w.files path := by
  rw [removeOldImage_eq]
  cases hp : getPublicImagePath cwd u.profileImage with
  | none => exact ⟨w, rfl, rfl, fun path h => by cases h⟩
  | some oldFilePath =>
    simp only [hrm]
    refine ⟨_, rfl, rfl, ?_⟩
    intro path h
    cases h
    rfl

/-- C5. A `POST` for an existing user with a `file` field holding a file of an
allowed MIME type, in a run where no I/O step fails, answers 200 with `imageUrl`
equal to `/profile-images/` followed by 64 hexadecimal characters, a dot and the
extension of the type; afterwards the file at the path `imageUrl` resolves to holds
the uploaded bytes and the user's `profileImage` equals `imageUrl`. -/
theorem upload_success (cwd : Str) (randomBytes : List Nat) (w : World) (id : Option Str)
    (req : Request) (filter : Filter) (u : User) (fd : List (Str × FormValue))
    (file : UploadedFile) (ext : Str)
    (hrandom : randomBytes.length = 32)
    (hid : normalizeId id = some filter) (huser : findOne w.users filter = some u)
    (hparse : parseMultipartFormData req = some fd)
    (hfile : assocGet "file".toList fd = some (.file file))
    (hext : (file.type, ext) ∈ ALLOWED_IMAGE_TYPES) :
    ∃ hex savePath, hex.length = 64 ∧ (∀ c ∈ hex, isHexChar c = true) ∧
      (POST cwd randomBytes Faults.none w id req).1 =
        ⟨200, .imageUrl ("/profile-images/".toList ++ hex ++ '.' :: ext)⟩ ∧
      getPublicImagePath cwd (.str ("/profile-images/".toList ++ hex ++ '.' :: ext)) =
        some savePath ∧
      readFile (POST cwd randomBytes Faults.none w id req).2.files savePath =
        some file.content ∧
      ∃ u', findOne (POST cwd randomBytes Faults.none w id req).2.users filter = some u' ∧
        u'.profileImage = .str ("/profile-images/".toList ++ hex ++ '.' :: ext) := by
  have htype := allowedImageType_of_mem hext
  obtain ⟨savePath, hsave, hpost⟩ :=
    POST_of_valid cwd randomBytes Faults.none w hid hparse hfile htype
  obtain ⟨w1, hrm, husers, _⟩ := removeOldImage_no_fault cwd Faults.none w u rfl
  have htry := postTry_of_ok cwd Faults.none file
    (publicPrefix ++ getNewImageName randomBytes file.type) savePath rfl rfl huser hrm rfl rfl
    rfl rfl
  have hname : publicPrefix ++ getNewImageName randomBytes file.type =
      "/profile-images/".toList ++ toHex randomBytes ++ '.' :: ext := by
    simp only [getNewImageName, htype, Option.getD_some, publicPrefix, List.append_assoc]
  rw [hname] at hsave hpost htry
  refine ⟨toHex randomBytes, savePath, ?_, toHex_hex randomBytes, ?_, hsave, ?_, ?_⟩
  · rw [toHex_length, hrandom]
  · rw [hpost, htry]
  · rw [hpost, htry]
    exact readFile_writeFile_self _ _ _
  · rw [hpost, htry, husers]
    exact ⟨_, findOne_updateOne w.users filter u _ huser, rfl⟩

theorem removeOldImage_ok_of_resolves {cwd : Str} {faults : Faults} {w w1 : World} {u : User}
    {oldPath : Str} (hold : getPublicImagePath cwd u.profileImage = some oldPath)
    (hrm : removeOldImage cwd faults w u = .ok w1) :
    w1 = { w with files := rmForce w.files oldPath } := by
  rw [removeOldImage_eq, hold] at hrm
  cases hf : faults.rm with
  | some e =>
    rw [hf] at hrm
    cases hrm
  | none =>
    rw [hf] at hrm
    cases hrm
    rfl

/-- The content of every path after the old file is removed and the new one is
written. -/
theorem readFile_replace (files : List (Str × List Nat)) (oldPath savePath path : Str)
    (data : List Nat) :
    readFile (writeFile (rmForce files oldPath) savePath data) path =
      if path = savePath then some data
      else if path = oldPath then none
      else readFile files path := by
  by_cases hs : path = savePath
  · rw [if_pos hs, hs]
    exact readFile_writeFile_self _ _ _
  · rw [if_neg hs, readFile_writeFile_of_ne _ _ _ _ hs, readFile_rmForce_of_ne _ _ hs]
    by_cases ho : path = oldPath
    · rw [if_pos ho, ho]
      exact readFile_rmForce_self _ _
    · rw [if_neg ho]
      exact readFile_rmForce_of_ne _ _ ho _

/-- C6, what the code guarantees: a `POST` answered with 200 for a user whose
`profileImage` was a URL under the public prefix removes the file at the old path,
writes the uploaded bytes at the new path, records the new URL, and leaves every
other path of the disk as it was. So the new file is the only file on disk
afterwards exactly under the condition that no file other than the old one was on
disk before. -/
theorem replacement_swaps_old_for_new (cwd : Str) (randomBytes : List Nat) (faults : Faults)
    (w : World) (id : Option Str) (req : Request) (filter : Filter) (u : User)
    (oldName : Str)
    (hid : normalizeId id = some filter) (huser : findOne w.users filter = some u)
    (hold : u.profileImage = .str (publicPrefix ++ oldName))
    (h200 : (POST cwd randomBytes faults w id req).1.status = 200) :
    ∃ oldPath imageUrl savePath fd file,
      getPublicImagePath cwd u.profileImage = some oldPath ∧
      parseMultipartFormData req = some fd ∧
      assocGet "file".toList fd = some (.file file) ∧
      (POST cwd randomBytes faults w id req).1 = ⟨200, .imageUrl imageUrl⟩ ∧
      getPublicImagePath cwd (.str imageUrl) = some savePath ∧
      (∃ u', findOne (POST cwd randomBytes faults w id req).2.users filter = some u' ∧
        u'.profileImage = .str imageUrl) ∧
      (∀ path, readFile (POST cwd randomBytes faults w id req).2.files path =
        if path = savePath then some file.content
        else if path = oldPath then none
        else readFile w.files path) ∧
      ((∀ path, readFile w.files path ≠ none → path = oldPath) →
        ∀ path, readFile (POST cwd randomBytes faults w id req).2.files path ≠ none ↔
          path = savePath) := by
  obtain ⟨oldPath, holdPath⟩ := getPublicImagePath_isSome cwd oldName
  rw [← hold] at holdPath
  rcases POST_cases cwd randomBytes faults w id req with hc | ⟨filter', fd, file, ext, h1, h2, h3, h4⟩
  · rw [hc.1] at h200
    exact absurd h200 (by decide)
  · obtain ⟨savePath, hsave, hpost⟩ := POST_of_valid cwd randomBytes faults w h1 h2 h3 h4
    have hf : filter' = filter := by
      rw [hid] at h1
      exact (Option.some.inj h1).symm
    rw [hf] at hpost
    rw [hpost] at h200
    obtain ⟨u2, w1, hu2, hrm, htry⟩ := postTry_200_inv h200
    have hu : u2 = u := by
      rw [huser] at hu2
      exact (Option.some.inj hu2).symm
    rw [hu] at hrm htry
    have hw1 := removeOldImage_ok_of_resolves holdPath hrm
    subst hw1
    have hframe : ∀ path,
        readFile (writeFile (rmForce w.files oldPath) savePath file.content) path =
          if path = savePath then some file.content
          else if path = oldPath then none
          else readFile w.files path :=
      fun path => readFile_replace w.files oldPath savePath path file.content
    refine ⟨oldPath, _, savePath, fd, file, holdPath, h2, h3, ?_, hsave, ?_, ?_, ?_⟩
    · rw [hpost, htry]
    · rw [hpost, htry]
      exact ⟨_, findOne_updateOne w.users filter u _ huser, rfl⟩
    · rw [hpost, htry]
      exact hframe
    · rw [hpost, htry]
      intro honly path
      show readFile (writeFile (rmForce w.files oldPath) savePath file.content) path ≠ none ↔
        path = savePath
      rw [hframe path]
      by_cases hs : path = savePath
      · simp [hs]
      · rw [if_neg hs]
        by_cases ho : path = oldPath
        · simp [ho, hs]
          intro h
          exact hs (ho.trans h)
        · rw [if_neg ho]
          constructor
          · intro h
            exact absurd (honly path h) ho
          · intro h
            exact absurd h hs

theorem clear_success_response (cwd : Str) (w : World) (id : Option Str) (filter : Filter)
    (u : User) (hid : normalizeId id = some filter) (huser : findOne w.users filter = some u) :
    (DELETE cwd Faults.none w id).1 = ⟨200, .message "OK".toList⟩ := by
  obtain ⟨w1, hrm, _, _⟩ := removeOldImage_no_fault cwd Faults.none w u rfl
  have hconnect : Faults.none.connect = none := rfl
  have hfind : Faults.none.findOne = none := rfl
  have hupdate : Faults.none.updateOne = none := rfl
  simp only [DELETE, hid, huser, hrm, hconnect, hfind, hupdate]

/-- C7. A `DELETE` for an existing user, in a run where no I/O step fails, answers
200 with the body `OK`; afterwards the user's `profileImage` is `null` and the path
the old `profileImage` resolved to holds no file, whether or not a file was there
before. -/
theorem clear_success (cwd : Str) (w : World) (id : Option Str) (filter : Filter) (u : User)
    (hid : normalizeId id = some filter) (huser : findOne w.users filter = some u) :
    (DELETE cwd Faults.none w id).1 = ⟨200, .message "OK".toList⟩ ∧
    (∃ u', findOne (DELETE cwd Faults.none w id).2.users filter = some u' ∧
      u'.profileImage = .null) ∧
    (∀ path, getPublicImagePath cwd u.profileImage = some path →
      readFile (DELETE cwd Faults.none w id).2.files path = none) := by
  obtain ⟨w1, hrm, husers, hfiles⟩ := removeOldImage_no_fault cwd Faults.none w u rfl
  have hdel : DELETE cwd Faults.none w id =
      (⟨200, .message "OK".toList⟩, { w1 with users := updateOne w1.users u._id .null }) := by
    have hconnect : Faults.none.connect = none := rfl
    have hfind : Faults.none.findOne = none := rfl
    have hupdate : Faults.none.updateOne = none := rfl
    simp only [DELETE, hid, huser, hrm, hconnect, hfind, hupdate]
  rw [hdel]
  refine ⟨rfl, ?_, ?_⟩
  · simp only [husers]
    exact ⟨_, findOne_updateOne w.users filter u _ huser, rfl⟩
  · intro path hpath
    simp only [hfiles path hpath]
    exact readFile_rmForce_self _ _

/-! ## Failure of the old-file cleanup -/

theorem rmForce_of_absent (path : Str) : ∀ files : List (Str × List Nat),
    readFile files path = none → rmForce files path = files
  | [], _ => rfl
  | (k, v) :: rest, h => by
    unfold readFile at h
    by_cases hk : k = path
    · simp [assocGet, hk] at h
    · simp only [assocGet, hk, if_false] at h
      simp [rmForce, hk, rmForce_of_absent path rest h]

/-- C2, what the code does instead: for a `POST` that passes validation and finds
the user, and a `DELETE` that finds the user, when the stored `profileImage`
resolves to a path and deleting that file throws an unexpected I/O error `e`, the
handler answers 500 with the text of `e` and leaves files and users unchanged. An
absent file is tolerated: with no step failing both handlers then answer 200. -/
theorem cleanup_failure_aborts (cwd : Str) (randomBytes : List Nat) (faults : Faults)
    (w : World) (id : Option Str) (req : Request) (filter : Filter) (u : User)
    (fd : List (Str × FormValue)) (file : UploadedFile) (ext oldPath : Str)
    (hid : normalizeId id = some filter)
    (hparse : parseMultipartFormData req = some fd)
    (hfile : assocGet "file".toList fd = some (.file file))
    (htype : allowedImageType file.type = some ext)
    (hconnect : faults.connect = none) (hfind : faults.findOne = none)
    (huser : findOne w.users filter = some u)
    (hold : getPublicImagePath cwd u.profileImage = some oldPath) :
    (∀ e, faults.rm = some e →
      POST cwd randomBytes faults w id req = (⟨500, .message e⟩, w) ∧
      DELETE cwd faults w id = (⟨500, .message e⟩, w)) ∧
    (readFile w.files oldPath = none →
      (POST cwd randomBytes Faults.none w id req).1.status = 200 ∧
      (DELETE cwd Faults.none w id).1.status = 200 ∧
      (DELETE cwd Faults.none w id).2.files = w.files) := by
  constructor
  · intro e hrm
    have hremove : removeOldImage cwd faults w u = .error e := by
      rw [removeOldImage_eq, hold]
      simp only [hrm]
    obtain ⟨savePath, _, hpost⟩ := POST_of_valid cwd randomBytes faults w hid hparse hfile htype
    constructor
    · rw [hpost]
      simp only [postTry, hconnect, hfind, huser, hremove]
    · simp only [DELETE, hid, hconnect, hfind, huser, hremove]
  · intro habsent
    obtain ⟨savePath, _, hpost⟩ :=
      POST_of_valid cwd randomBytes Faults.none w hid hparse hfile htype
    obtain ⟨w1, hrm, _, hfiles⟩ := removeOldImage_no_fault cwd Faults.none w u rfl
    refine ⟨?_, ?_, ?_⟩
    · rw [hpost, postTry_of_ok cwd Faults.none file _ savePath rfl rfl
        huser hrm rfl rfl rfl rfl]
    · exact congrArg Response.status (clear_success_response cwd w id filter u hid huser)
    · have hconnect : Faults.none.connect = none := rfl
      have hfind : Faults.none.findOne = none := rfl
      have hupdate : Faults.none.updateOne = none := rfl
      simp only [DELETE, hid, huser, hrm, hconnect, hfind, hupdate]
      rw [hfiles oldPath hold, rmForce_of_absent oldPath w.files habsent]

/-- Witness for the corrected C2: deleting `x.jpg` fails with a permission error. -/
theorem cleanup_failure_aborts_witness :
    (POST exampleCwd exampleRandom rmFault storedWorld (some exampleId) pngRequest =
        (⟨500, .message "Error: EPERM: operation not permitted, rm".toList⟩, storedWorld) ∧
      DELETE exampleCwd rmFault storedWorld (some exampleId) =
        (⟨500, .message "Error: EPERM: operation not permitted, rm".toList⟩, storedWorld)) ∧
    ((POST exampleCwd exampleRandom Faults.none staleWorld (some exampleId) pngRequest).1.status
        = 200 ∧
      (DELETE exampleCwd Faults.none staleWorld (some exampleId)).1.status = 200 ∧
      (DELETE exampleCwd Faults.none staleWorld (some exampleId)).2.files = staleWorld.files) :=
  ⟨(cleanup_failure_aborts exampleCwd exampleRandom rmFault storedWorld (some exampleId)
      pngRequest exampleFilter ⟨.oid (ObjectId.ofHex exampleId), .str "/profile-images/x.jpg".toList⟩
      [("file".toList, .file ⟨"image/png".toList, [137, 80, 78, 71]⟩)]
      ⟨"image/png".toList, [137, 80, 78, 71]⟩ "png".toList
      "/app/public/profile-images/x.jpg".toList (by decide) (by decide) (by decide) (by decide)
      (by decide) (by decide) (by decide) (by decide)).1 _ rfl,
   (cleanup_failure_aborts exampleCwd exampleRandom Faults.none staleWorld (some exampleId)
      pngRequest exampleFilter ⟨.oid (ObjectId.ofHex exampleId), .str "/profile-images/x.jpg".toList⟩
      [("file".toList, .file ⟨"image/png".toList, [137, 80, 78, 71]⟩)]
      ⟨"image/png".toList, [137, 80, 78, 71]⟩ "png".toList
      "/app/public/profile-images/x.jpg".toList (by decide) (by decide) (by decide) (by decide)
      (by decide) (by decide) (by decide) (by decide)).2 (by decide)⟩

/-- C2 as stated fails: with the stored image `x.jpg` on disk and a deletion that
throws a permission error, `POST` and `DELETE` answer 500 instead of 200, no new
file is written and `profileImage` keeps its old value. -/
theorem cleanup_best_effort_counterexample :
    (POST exampleCwd exampleRandom rmFault storedWorld (some exampleId) pngRequest).1.status
      = 500 ∧
    readFile (POST exampleCwd exampleRandom rmFault storedWorld (some exampleId)
      pngRequest).2.files
      "/app/public/profile-images/000102030405060708090a0b0c0d0e0f101112131415161718191a1b1c1d1e1f.png".toList
      = none ∧
    findOne (POST exampleCwd exampleRandom rmFault storedWorld (some exampleId)
      pngRequest).2.users exampleFilter =
      some ⟨.oid (ObjectId.ofHex exampleId), .str "/profile-images/x.jpg".toList⟩ ∧
    (POST exampleCwd exampleRandom Faults.none storedWorld (some exampleId) pngRequest).1 =
      ⟨200, .imageUrl exampleNewUrl⟩ ∧
    (DELETE exampleCwd rmFault storedWorld (some exampleId)).1.status = 500 ∧
    findOne (DELETE exampleCwd rmFault storedWorld (some exampleId)).2.users exampleFilter =
      some ⟨.oid (ObjectId.ofHex exampleId), .str "/profile-images/x.jpg".toList⟩ ∧
    (DELETE exampleCwd Faults.none storedWorld (some exampleId)).1.status = 200 := by
  decide

/-! ## References after a failed upload -/

/-- The three kinds of outcome of the `try` block of `POST` for a user that is
found: nothing changed; a step after the old-file cleanup threw, so that the
collection is unchanged and the disk is the one left by the cleanup, possibly
with the new file; or every step ran. -/
theorem postTry_outcomes (cwd : Str) (faults : Faults) (w : World) (filter : Filter)
    (file : UploadedFile) (imageUrl savePath : Str) (u : User)
    (huser : findOne w.users filter = some u) :
    ((postTry cwd faults w filter file imageUrl savePath).2 = w ∧
      (postTry cwd faults w filter file imageUrl savePath).1.status = 500) ∨
    (∃ w1, removeOldImage cwd faults w u = .ok w1 ∧
      (postTry cwd faults w filter file imageUrl savePath).1.status = 500 ∧
      (postTry cwd faults w filter file imageUrl savePath).2.users = w.users ∧
      ((postTry cwd faults w filter file imageUrl savePath).2.files = w1.files ∨
        (postTry cwd faults w filter file imageUrl savePath).2.files =
          writeFile w1.files savePath file.content) ∧
      ¬ (faults.arrayBuffer = none ∧ faults.mkdir = none ∧ faults.writeFile = none ∧
        faults.updateOne = none)) ∨
    (∃ w1, removeOldImage cwd faults w u = .ok w1 ∧
      postTry cwd faults w filter file imageUrl savePath =
        (⟨200, .imageUrl imageUrl⟩,
          ⟨writeFile w1.files savePath file.content,
            updateOne w1.users u._id (.str imageUrl)⟩)) := by
  cases hconnect : faults.connect with
  | some e =>
    left
    simp only [postTry, hconnect, and_self]
  | none =>
  cases hfind : faults.findOne with
  | some e =>
    left
    simp only [postTry, hconnect, hfind, and_self]
  | none =>
  cases hrm : removeOldImage cwd faults w u with
  | error e =>
    left
    simp only [postTry, hconnect, hfind, huser, hrm, and_self]
  | ok w1 =>
  have husers := removeOldImage_users hrm
  cases hbuffer : faults.arrayBuffer with
  | some e =>
    right; left
    refine ⟨w1, rfl, ?_, ?_, ?_, ?_⟩
    · simp only [postTry, hconnect, hfind, huser, hrm, hbuffer]
    · simp only [postTry, hconnect, hfind, huser, hrm, hbuffer, husers]
    · left
      simp only [postTry, hconnect, hfind, huser, hrm, hbuffer]
    · simp
  | none =>
  cases hmkdir : faults.mkdir with
  | some e =>
    right; left
    refine ⟨w1, rfl, ?_, ?_, ?_, ?_⟩
    · simp only [postTry, hconnect, hfind, huser, hrm, hbuffer, hmkdir]
    · simp only [postTry, hconnect, hfind, huser, hrm, hbuffer, hmkdir, husers]
    · left
      simp only [postTry, hconnect, hfind, huser, hrm, hbuffer, hmkdir]
    · simp
  | none =>
  cases hwrite : faults.writeFile with
  | some e =>
    right; left
    refine ⟨w1, rfl, ?_, ?_, ?_, ?_⟩
    · simp only [postTry, hconnect, hfind, huser, hrm, hbuffer, hmkdir, hwrite]
    · simp only [postTry, hconnect, hfind, huser, hrm, hbuffer, hmkdir, hwrite, husers]
    · left
      simp only [postTry, hconnect, hfind, huser, hrm, hbuffer, hmkdir, hwrite]
    · simp
  | none =>
  cases hupdate : faults.updateOne with
  | some e =>
    right; left
    refine ⟨w1, rfl, ?_, ?_, ?_, ?_⟩
    · simp only [postTry, hconnect, hfind, huser, hrm, hbuffer, hmkdir, hwrite, hupdate]
    · simp only [postTry, hconnect, hfind, huser, hrm, hbuffer, hmkdir, hwrite, hupdate, husers]
    · right
      simp only [postTry, hconnect, hfind, huser, hrm, hbuffer, hmkdir, hwrite, hupdate]
    · simp
  | none =>
    right; right
    exact ⟨w1, rfl,
      postTry_of_ok cwd faults file imageUrl savePath hconnect hfind huser hrm hbuffer hmkdir hwrite hupdate⟩

theorem referencesStoredFile_written (cwd : Str) (files : List (Str × List Nat))
    (imageUrl savePath : Str) (data : List Nat)
    (hsave : getPublicImagePath cwd (.str imageUrl) = some savePath) :
    referencesStoredFile cwd (writeFile files savePath data) (.str imageUrl) = true := by
  simp only [referencesStoredFile, hsave, readFile_writeFile_self, Option.isSome_some]

/-- C3, what the code guarantees: for a `POST` on a user whose `profileImage` is
`null` or references an existing file, the `profileImage` afterwards is either
unchanged or the new URL of a 200 response, whose file exists; and it is `null` or
references an existing file in every outcome in which the user had no image or no
step after the old-file cleanup (reading the upload, creating the directory,
writing the file, updating the record) fails. -/
theorem no_dangling_reference_unless_late_failure (cwd : Str) (randomBytes : List Nat)
    (faults : Faults) (w : World) (id : Option Str) (req : Request) (filter : Filter)
    (u : User)
    (hid : normalizeId id = some filter) (huser : findOne w.users filter = some u)
    (hpre : profileImageOk cwd w.files u.profileImage = true) :
    ∃ u', findOne (POST cwd randomBytes faults w id req).2.users filter = some u' ∧
      (u'.profileImage = u.profileImage ∨
        ((POST cwd randomBytes faults w id req).1.status = 200 ∧
          referencesStoredFile cwd (POST cwd randomBytes faults w id req).2.files
            u'.profileImage = true)) ∧
      ((u.profileImage = .null ∨
          (faults.arrayBuffer = none ∧ faults.mkdir = none ∧ faults.writeFile = none ∧
            faults.updateOne = none)) →
        profileImageOk cwd (POST cwd randomBytes faults w id req).2.files u'.profileImage
          = true) := by
  rcases POST_cases cwd randomBytes faults w id req with hc | ⟨filter', fd, file, ext, h1, h2, h3, h4⟩
  · rw [hc.2]
    exact ⟨u, huser, Or.inl rfl, fun _ => hpre⟩
  · obtain ⟨savePath, hsave, hpost⟩ := POST_of_valid cwd randomBytes faults w h1 h2 h3 h4
    have hf : filter' = filter := by
      rw [hid] at h1
      exact (Option.some.inj h1).symm
    rw [hf] at hpost
    rw [hpost]
    rcases postTry_outcomes cwd faults w filter file _ savePath u huser with
      ⟨hw, _⟩ | ⟨w1, hrm, _, husers, hfiles, hlate⟩ | ⟨w1, hrm, htry⟩
    · rw [hw]
      exact ⟨u, huser, Or.inl rfl, fun _ => hpre⟩
    · rw [husers]
      refine ⟨u, huser, Or.inl rfl, ?_⟩
      intro h
      rcases h with hnull | hno
      · rw [hnull]
        rfl
      · exact absurd hno hlate
    · rw [htry, removeOldImage_users hrm]
      have href := referencesStoredFile_written cwd w1.files _ savePath file.content hsave
      refine ⟨_, findOne_updateOne w.users filter u _ huser, Or.inr ⟨rfl, href⟩, ?_⟩
      intro _
      exact href

/-- Witness for the corrected C3: the user has no image and the write fails. -/
theorem no_dangling_reference_unless_late_failure_witness :
    ∃ u', findOne (POST exampleCwd exampleRandom writeFault freshWorld (some exampleId)
        pngRequest).2.users exampleFilter = some u' ∧
      (u'.profileImage = .null ∨
        ((POST exampleCwd exampleRandom writeFault freshWorld (some exampleId)
            pngRequest).1.status = 200 ∧
          referencesStoredFile exampleCwd (POST exampleCwd exampleRandom writeFault freshWorld
            (some exampleId) pngRequest).2.files u'.profileImage = true)) ∧
      profileImageOk exampleCwd (POST exampleCwd exampleRandom writeFault freshWorld
        (some exampleId) pngRequest).2.files u'.profileImage = true :=
  match no_dangling_reference_unless_late_failure exampleCwd exampleRandom writeFault freshWorld
      (some exampleId) pngRequest exampleFilter ⟨.oid (ObjectId.ofHex exampleId), .null⟩
      (by decide) (by decide) (by decide) with
  | ⟨u', h1, h2, h3⟩ => ⟨u', h1, h2, h3 (Or.inl rfl)⟩

/-- C3 as stated fails: the user's `profileImage` references `x.jpg`, which exists;
the handler deletes it, then the write of the new file fails (or the database
update does); the response is 500 and `profileImage` still names `x.jpg`, which is
gone. -/
theorem dangling_reference_counterexample :
    profileImageOk exampleCwd storedWorld.files (.str "/profile-images/x.jpg".toList) = true ∧
    POST exampleCwd exampleRandom writeFault storedWorld (some exampleId) pngRequest =
      (⟨500, .message "Error: ENOSPC: no space left on device, write".toList⟩, staleWorld) ∧
    findOne staleWorld.users exampleFilter =
      some ⟨.oid (ObjectId.ofHex exampleId), .str "/profile-images/x.jpg".toList⟩ ∧
    profileImageOk exampleCwd staleWorld.files (.str "/profile-images/x.jpg".toList) = false ∧
    (POST exampleCwd exampleRandom updateFault storedWorld (some exampleId) pngRequest).1.status
      = 500 ∧
    profileImageOk exampleCwd
      (POST exampleCwd exampleRandom updateFault storedWorld (some exampleId) pngRequest).2.files
      (.str "/profile-images/x.jpg".toList) = false := by
  decide

/-! ## The end-to-end examples of the spec -/

/-- Witness for C4: an unknown identifier gives 404 and an unsupported type gives
400, both without any effect. -/
theorem no_side_effects_on_4xx_witness :
    (POST exampleCwd exampleRandom Faults.none storedWorld (some "not-a-real-id".toList)
      pngRequest).1.status = 404 ∧
    (POST exampleCwd exampleRandom Faults.none storedWorld (some "not-a-real-id".toList)
      pngRequest).2 = storedWorld ∧
    (POST exampleCwd exampleRandom Faults.none storedWorld (some exampleId)
      pdfRequest).1.status = 400 ∧
    (POST exampleCwd exampleRandom Faults.none storedWorld (some exampleId)
      pdfRequest).2 = storedWorld ∧
    (DELETE exampleCwd Faults.none storedWorld (some "not-a-real-id".toList)).1.status = 404 ∧
    (DELETE exampleCwd Faults.none storedWorld (some "not-a-real-id".toList)).2 = storedWorld :=
  ⟨by decide,
   (no_side_effects_on_4xx exampleCwd exampleRandom Faults.none storedWorld
      (some "not-a-real-id".toList) pngRequest).1 (Or.inr (by decide)),
   by decide,
   (no_side_effects_on_4xx exampleCwd exampleRandom Faults.none storedWorld (some exampleId)
      pdfRequest).1 (Or.inl (by decide)),
   by decide,
   (no_side_effects_on_4xx exampleCwd exampleRandom Faults.none storedWorld
      (some "not-a-real-id".toList) pngRequest).2 (Or.inr (by decide))⟩

/-- Witness for C5: the user of the spec's example, without an image, uploads a
PNG. -/
theorem upload_success_witness :
    ∃ hex savePath, hex.length = 64 ∧ (∀ c ∈ hex, isHexChar c = true) ∧
      (POST exampleCwd exampleRandom Faults.none freshWorld (some exampleId) pngRequest).1 =
        ⟨200, .imageUrl ("/profile-images/".toList ++ hex ++ '.' :: "png".toList)⟩ ∧
      getPublicImagePath exampleCwd
        (.str ("/profile-images/".toList ++ hex ++ '.' :: "png".toList)) = some savePath ∧
      readFile (POST exampleCwd exampleRandom Faults.none freshWorld (some exampleId)
        pngRequest).2.files savePath = some [137, 80, 78, 71] ∧
      ∃ u', findOne (POST exampleCwd exampleRandom Faults.none freshWorld (some exampleId)
          pngRequest).2.users exampleFilter = some u' ∧
        u'.profileImage = .str ("/profile-images/".toList ++ hex ++ '.' :: "png".toList) :=
  upload_success exampleCwd exampleRandom freshWorld (some exampleId) pngRequest exampleFilter
    ⟨.oid (ObjectId.ofHex exampleId), .null⟩
    [("file".toList, .file ⟨"image/png".toList, [137, 80, 78, 71]⟩)]
    ⟨"image/png".toList, [137, 80, 78, 71]⟩ "png".toList
    (by decide) (by decide) (by decide) (by decide) (by decide) (by decide)

/-- Witness for the corrected C6: the user with the stored image `x.jpg`, the only
file on disk, uploads a PNG; afterwards the PNG is the only file on disk. -/
theorem replacement_swaps_old_for_new_witness :
    ∃ oldPath imageUrl savePath fd file,
      getPublicImagePath exampleCwd (.str "/profile-images/x.jpg".toList) = some oldPath ∧
      parseMultipartFormData pngRequest = some fd ∧
      assocGet "file".toList fd = some (.file file) ∧
      (POST exampleCwd exampleRandom Faults.none storedWorld (some exampleId) pngRequest).1 =
        ⟨200, .imageUrl imageUrl⟩ ∧
      getPublicImagePath exampleCwd (.str imageUrl) = some savePath ∧
      (∃ u', findOne (POST exampleCwd exampleRandom Faults.none storedWorld (some exampleId)
          pngRequest).2.users exampleFilter = some u' ∧
        u'.profileImage = .str imageUrl) ∧
      (∀ path, readFile (POST exampleCwd exampleRandom Faults.none storedWorld
          (some exampleId) pngRequest).2.files path =
        if path = savePath then some file.content
        else if path = oldPath then none
        else readFile storedWorld.files path) ∧
      (∀ path, readFile (POST exampleCwd exampleRandom Faults.none storedWorld
          (some exampleId) pngRequest).2.files path ≠ none ↔ path = savePath) :=
  match replacement_swaps_old_for_new exampleCwd exampleRandom Faults.none storedWorld
      (some exampleId) pngRequest exampleFilter
      ⟨.oid (ObjectId.ofHex exampleId), .str "/profile-images/x.jpg".toList⟩ "x.jpg".toList
      (by decide) (by decide) (by decide) (by decide) with
  | ⟨oldPath, imageUrl, savePath, fd, file, h1, h2, h3, h4, h5, h6, h7, h8⟩ =>
    ⟨oldPath, imageUrl, savePath, fd, file, h1, h2, h3, h4, h5, h6, h7,
      h8 (by
        have hold : oldPath = "/app/public/profile-images/x.jpg".toList := by
          have h : getPublicImagePath exampleCwd (.str "/profile-images/x.jpg".toList) =
              some "/app/public/profile-images/x.jpg".toList := by decide
          rw [h] at h1
          exact (Option.some.inj h1).symm
        intro path hpath
        rw [hold]
        by_contra hne
        apply hpath
        have hne' : ¬ "/app/public/profile-images/x.jpg".toList = path := fun e => hne e.symm
        simp only [storedWorld, readFile, assocGet, hne', if_false])⟩

/-- C6 as stated fails: a first upload whose database update fails leaves its file
on disk unreferenced; a second upload succeeds and stores the file the record then
references; the third upload is answered with 200 and removes the second file, yet
two image files are on disk afterwards, the new one and the one of the first
upload. -/
theorem replacement_leaves_orphan_counterexample :
    (POST exampleCwd exampleRandom updateFault freshWorld (some exampleId)
      pngRequest).1.status = 500 ∧
    (POST exampleCwd exampleRandom2 Faults.none orphanWorld (some exampleId) pngRequest).1 =
      ⟨200, .imageUrl (pngUrlOf exampleRandom2)⟩ ∧
    findOne secondUploadWorld.users exampleFilter =
      some ⟨.oid (ObjectId.ofHex exampleId), .str (pngUrlOf exampleRandom2)⟩ ∧
    getPublicImagePath exampleCwd (.str (pngUrlOf exampleRandom2)) =
      some (pngPathOf exampleRandom2) ∧
    readFile secondUploadWorld.files (pngPathOf exampleRandom2) = some [137, 80, 78, 71] ∧
    (POST exampleCwd exampleRandom3 Faults.none secondUploadWorld (some exampleId)
      pngRequest).1 = ⟨200, .imageUrl (pngUrlOf exampleRandom3)⟩ ∧
    (POST exampleCwd exampleRandom3 Faults.none secondUploadWorld (some exampleId)
      pngRequest).2 =
      { files := [(pngPathOf exampleRandom3, [137, 80, 78, 71]),
                  (pngPathOf exampleRandom, [137, 80, 78, 71])],
        users := [⟨.oid (ObjectId.ofHex exampleId), .str (pngUrlOf exampleRandom3)⟩] } ∧
    pngPathOf exampleRandom3 ≠ pngPathOf exampleRandom := by
  decide

/-- Witness for C7: clearing the image `x.jpg`, once with the file on disk and once
with the file already gone. -/
theorem clear_success_witness :
    ((DELETE exampleCwd Faults.none storedWorld (some exampleId)).1 =
        ⟨200, .message "OK".toList⟩ ∧
      (∃ u', findOne (DELETE exampleCwd Faults.none storedWorld (some exampleId)).2.users
          exampleFilter = some u' ∧ u'.profileImage = .null) ∧
      (∀ path, getPublicImagePath exampleCwd (.str "/profile-images/x.jpg".toList) = some path →
        readFile (DELETE exampleCwd Faults.none storedWorld (some exampleId)).2.files path
          = none)) ∧
    ((DELETE exampleCwd Faults.none staleWorld (some exampleId)).1 =
        ⟨200, .message "OK".toList⟩ ∧
      (∃ u', findOne (DELETE exampleCwd Faults.none staleWorld (some exampleId)).2.users
          exampleFilter = some u' ∧ u'.profileImage = .null) ∧
      (∀ path, getPublicImagePath exampleCwd (.str "/profile-images/x.jpg".toList) = some path →
        readFile (DELETE exampleCwd Faults.none staleWorld (some exampleId)).2.files path
          = none)) :=
  ⟨clear_success exampleCwd storedWorld (some exampleId) exampleFilter
      ⟨.oid (ObjectId.ofHex exampleId), .str "/profile-images/x.jpg".toList⟩
      (by decide) (by decide),
   clear_success exampleCwd staleWorld (some exampleId) exampleFilter
      ⟨.oid (ObjectId.ofHex exampleId), .str "/profile-images/x.jpg".toList⟩
      (by decide) (by decide)⟩

end ImageRoute
